import Mathlib

/-!
Verification of the iob-lib module setup / build orchestration engine.

This file shallowly embeds the parts of the repository needed to settle the
frozen claims:

* `update_dict_list` and the Python `dict.update` merge rule
  (`src/scripts/iob_module.py`, `iob_module.update_dict_list`);
* `copy_with_rename` and Python's `str.replace`
  (`src/scripts/iob_module.py`, `iob_module.copy_with_rename`);
* the template instantiation engine
  (`src/scripts/createSystem.py`, `insert_header_files`, `create_systemv`);
* the recursive, memoized, purpose-aware setup engine
  (`src/scripts/iob_module.py`, `iob_module.__setup`,
  `iob_module._setup_submodules`, `iob_module._post_setup`,
  `iob_module._build_regs_table`).

Machine state (per-descriptor-type class attributes) is embedded as explicit
state passed through an interpreter; file-system effects are embedded as an
event trace; Python exceptions are embedded as an error outcome.
-/

/-! ## Declarative-list merging (`iob_module.update_dict_list`)

The declarative lists (`confs`, `regs`, `ios`, `block_groups`) hold Python
dictionaries.  The merge logic only compares the `"name"` key and moves whole
values around, so the value type stays abstract (instantiated with `Nat` in
concrete examples). -/

/-- An item of a declarative list: a Python dict with a mandatory `"name"` key.
The remaining keys are kept as an association list (Python dicts preserve
insertion order and have unique keys; lookup takes the first match). -/

structure DItem (V : Type) where
  name : String
  fields : List (String × V)
deriving DecidableEq, Repr

/-- Lookup of a key in a Python-dict association list (first match). -/
def dictGet {V : Type} : List (String × V) → String → Option V
  | [], _ => none
  | (a, v) :: d, k => if a = k then some v else dictGet d k

/-- Python `d1.update(d2)` on plain dicts: keys already in `d1` keep their
position but take `d2`'s value when `d2` has that key; keys only in `d2` are
appended in `d2`'s order. -/
def dictUpdate {V : Type} (d1 d2 : List (String × V)) : List (String × V) :=
  d1.map (fun kv => (kv.1, (dictGet d2 kv.1).getD kv.2)) ++
    d2.filter (fun kv => (dictGet d1 kv.1).isNone)

/-- Python `_item.update(item)` for two declarative-list items.  The `"name"`
key is a field of its own in this embedding; `update` overwrites it with
`item`'s name (the call sites only merge items with equal names). -/
def itemUpdate {V : Type} (a b : DItem V) : DItem V :=
  { name := b.name, fields := dictUpdate a.fields b.fields }

/-- One step of `iob_module.update_dict_list`: merge a single new item into the
list.  The Python loop scans `dict_list` for the first entry with the same
`"name"`, calls `.update` on it in place and breaks; if none matches, the item
is appended (the `for ... else` appends). -/
def insertItem {V : Type} : List (DItem V) → DItem V → List (DItem V)
  | [], it => [it]
  | d :: ds, it =>
    if d.name = it.name then itemUpdate d it :: ds
    else d :: insertItem ds it

/-- `iob_module.update_dict_list dict_list new_items`: fold `insertItem` over
the new items in input order.  (The Python function mutates `dict_list` in
place; the embedding returns the resulting list value.) -/
def update_dict_list {V : Type} (dict_list new_items : List (DItem V)) :
    List (DItem V) :=
  new_items.foldl insertItem dict_list

/-- Names of the entries of a declarative list. -/
def itemNames {V : Type} (l : List (DItem V)) : List String :=
  l.map DItem.name

/-! ## Rename-on-copy (`iob_module.copy_with_rename`)

`copy_with_rename(old_core_name, new_core_name)` returns a copy function that
replaces `old_core_name` (and its upper-cased form) with `new_core_name` (and
its upper-cased form) in the destination file name and, line by line, in the
file content; files that cannot be read as text fall back to an unmodified
byte copy; in both cases the destination receives the source's permission
bits. -/
/-- Python `s.replace(pat, rep)` for a nonempty pattern: scan left to right,
replacing non-overlapping occurrences greedily.  (CPython treats an empty
pattern specially — it inserts `rep` between all characters — but the call
sites only pass descriptor-type names, which are nonempty; for an empty
pattern this model returns the string unchanged, and every theorem below
assumes a nonempty pattern.) -/
def pyReplaceAux (pat rep : List Char) : Nat → List Char → List Char
  | _, [] => []
  | 0, s => s
  | n + 1, c :: cs =>
    if pat ≠ [] ∧ pat.isPrefixOf (c :: cs) then
      rep ++ pyReplaceAux pat rep n (cs.drop (pat.length - 1))
    else
      c :: pyReplaceAux pat rep n cs

/-- Python `s.replace(pat, rep)`: the scan consumes at least one character per
step, so `s.length` steps of `pyReplaceAux` always complete the scan (the
fuel argument only makes the recursion structural). -/
def pyReplace (pat rep : List Char) (s : List Char) : List Char :=
  pyReplaceAux pat rep s.length s

/-- Python `s.upper()` (character-wise upper-casing suffices for the ASCII
descriptor names used by the repository). -/
def upperStr (s : List Char) : List Char :=
  s.map Char.toUpper

/-- The two chained replacements performed by `copy_with_rename`'s inner
`copy_func`: first `old → new`, then `OLD → NEW`. -/
def renameStr (old new : List Char) (s : List Char) : List Char :=
  pyReplace (upperStr old) (upperStr new) (pyReplace old new s)

/-- A source file as seen by `copy_func`: destination base name (before
renaming), content split into lines (Python `readlines`), permission bits
(`os.stat(src).st_mode`), and whether the file can be read as text (the
`try` succeeds). -/
structure SrcFile where
  basename : List Char
  lines : List (List Char)
  perms : Nat
  textReadable : Bool
deriving DecidableEq, Repr

/-- The destination file produced by `copy_func`. -/
structure DstFile where
  basename : List Char
  lines : List (List Char)
  perms : Nat
deriving DecidableEq, Repr

/-- `iob_module.copy_with_rename old new` applied to one source file: the
destination base name is renamed; if the file reads as text every line is
renamed, otherwise the content is copied unmodified (`shutil.copyfile`);
`os.chmod(dst, file_perms)` copies the permission bits in both cases. -/
def copy_with_rename (old new : List Char) (f : SrcFile) : DstFile :=
  { basename := renameStr old new f.basename,
    lines := if f.textReadable then f.lines.map (renameStr old new) else f.lines,
    perms := f.perms }

/-- Decidable check that `pat` occurs inside `s`. -/
def hasInfix (pat : List Char) : List Char → Bool
  | [] => pat.isEmpty
  | c :: cs => pat.isPrefixOf (c :: cs) || hasInfix pat cs

/-- Join a nonempty list of segments, inserting `sep` between consecutive
segments.  Used to express the occurrence factorization of `pyReplace`. -/
def joinWith (sep : List Char) : List (List Char) → List Char
  | [] => []
  | [u] => u
  | u :: us => u ++ sep ++ joinWith sep us

/-- Relation between a line and its renamed copy: the line factors into
segments separated by the replaced occurrences of `old`, the intermediate
string factors into segments separated by the replaced occurrences of the
upper-cased old name, every segment is occurrence-free, and the output is the
same segments joined by the respective new names — so all text outside the
two replacements is preserved byte-for-byte. -/
def RenameFactored (old new : List Char) (l l' : List Char) : Prop :=
  ∃ parts1 parts2 : List (List Char), parts1 ≠ [] ∧ parts2 ≠ [] ∧
    l = joinWith old parts1 ∧
    pyReplace old new l = joinWith new parts1 ∧
    (∀ u ∈ parts1, ¬ old <:+: u) ∧
    pyReplace old new l = joinWith (upperStr old) parts2 ∧
    l' = joinWith (upperStr new) parts2 ∧
    (∀ u ∈ parts2, ¬ upperStr old <:+: u)

/-! ## Template instantiation engine (`src/scripts/createSystem.py`)

The engine works on a line-oriented template (`readlines` keeps the trailing
newline on every line).  The helpers imported from the `submodule_utils` and
`ios` modules (`find_idx`, `import_setup`, `get_peripherals_ports_params_top`,
`get_reserved_signals`, `get_pio_signals`, `get_reserved_signal_connection`,
`ios.get_peripheral_port_mapping`) are not among the sources under
verification; they are modelled from the spec where noted below. -/
/-- Python `word in line` substring test on strings. -/
def strContains (l w : String) : Bool :=
  hasInfix w.toList l.toList

/-- Modelled from the spec: `find_idx` comes from the missing
`submodule_utils` helper module.  The spec's anchor semantics — one include
line "immediately after the header marker", instance text "directly above
the closing keyword" given the `- 1` at the call site, wires "directly after
the port-list-end anchor" — fix its value to (index of the first line
containing `word`) + 1.  When no line contains the word the scan falls
through the end of the list and the result is the list's length.
`findMarker` returns the index of the first line containing `word`. -/
def findMarker (word : String) : List String → Option Nat
  | [] => none
  | l :: ls =>
    if strContains l word then some 0 else (findMarker word ls).map (· + 1)

def find_idx (lines : List String) (word : String) : Nat :=
  match findMarker word lines with
  | some i => i + 1
  | none => lines.length

/-- Python `list.insert(i, a)`: insert before position `i`, appending when
`i` is past the end. -/
def insertL {α : Type} (l : List α) (i : Nat) (a : α) : List α :=
  l.take i ++ a :: l.drop i

/-- One port of a peripheral type.  Modelled from the spec: a port is either
"reserved" (auto-connected by naming convention, selected by
`get_reserved_signals`) or a regular I/O port (selected by
`get_pio_signals`); the flag records that classification. -/
structure PortSig where
  name : String
  reserved : Bool
deriving DecidableEq, Repr

/-- One peripheral-instance description: type identifier, instance name and
parameter overrides (`instance['type']`, `instance['name']`,
`instance['params']`). -/
structure Periph where
  ptype : String
  pname : String
  params : List (String × String)
deriving DecidableEq, Repr

/-- Inputs of `create_systemv`: whether `<setup_dir>/hardware/src/<top>.vt`
exists, its lines, the system top name, the peripheral instances, and the
per-type metadata (port list and top-level module name, produced by
`get_peripherals_ports_params_top` / `import_setup`, modelled as given maps)
plus the per-instance port mapping (`ios.get_peripheral_port_mapping`) and
the optional internal-wire list (entries as (name, n_bits)). -/
structure SysIn where
  templateExists : Bool
  template : List String
  top : String
  periphs : List Periph
  portList : String → List PortSig
  topName : String → String
  portMap : String → String → String
  internalWires : Option (List (String × String))

/-- The include line inserted for a peripheral type whose top name is
`topname`. -/
def includeLine (topname : String) : String :=
  "`include \"" ++ topname ++ "_swreg_def.vh\"\n"

/-- The loop of `insert_header_files`: one include line per first-seen
peripheral type, each inserted at the fixed index computed once before the
loop. -/
def insertHeadersLoop (topName : String → String) (headerIdx : Nat) :
    List Periph → List String → List String → List String
  | [], _, contents => contents
  | inst :: rest, included, contents =>
    if inst.ptype ∈ included then
      insertHeadersLoop topName headerIdx rest included contents
    else
      insertHeadersLoop topName headerIdx rest (included ++ [inst.ptype])
        (insertL contents headerIdx (includeLine (topName inst.ptype)))

/-- `createSystem.insert_header_files`: insert one
`` `include "<top>_swreg_def.vh" `` line per distinct peripheral type in use
at the index just past the `PHEADER` marker (computed once, before the
loop). -/
def insert_header_files (contents : List String) (periphs : List Periph)
    (topName : String → String) : List String :=
  insertHeadersLoop topName (find_idx contents "PHEADER") periphs [] contents

/-- Remove the first `,` of a character list (Python `replace(",", "", 1)`). -/
def removeFirstComma : List Char → List Char
  | [] => []
  | c :: cs => if c = ',' then cs else c :: removeFirstComma cs

/-- The comma-stripping trick
`line[::-1].replace(",", "", 1)[::-1]`: remove the right-most comma of the
line. -/
def stripLastComma (s : String) : String :=
  String.mk ((removeFirstComma s.toList.reverse).reverse)

/-- Modelled from the spec: `get_reserved_signal_connection` (missing
`submodule_utils` helper) derives the connection text of a reserved
(bus-protocol) signal from the signal name and the two naming prefixes
passed at the call site; the exact text is irrelevant to the claims (no
claim scenario involves a reserved signal). -/
def reservedConnection (sig instPrefix swregPrefix : String) : String :=
  "." ++ sig ++ "(" ++ instPrefix ++ "_" ++ swregPrefix ++ "_" ++ sig ++ ")"

/-- A regular I/O connection line `      .<port>(<signal>),`. -/
def ioLine (name mapped : String) : String :=
  "      ." ++ name ++ "(" ++ mapped ++ "),\n"

/-- Insert the given connection lines one by one at the fixed index `si`.
The source inserts each line and then, for the first inserted signal only
(the syntactically last one, since insertion at a fixed index emits in
reverse), strips the right-most comma of the line it just inserted — which
is the line at index `si`, i.e. the one being inserted. -/
def insertConnLines (si : Nat) :
    List String → List String × Bool → List String × Bool
  | [], st => st
  | ln :: rest, (contents, first) =>
    insertConnLines si rest
      (insertL contents si (if first then stripLastComma ln else ln), false)

/-- A parameter-override line; the separator comma is omitted for the first
inserted (syntactically last) parameter. -/
def paramLine (p v : String) (first : Bool) : String :=
  "      ." ++ p ++ "(" ++ v ++ ")" ++ (if first then "" else ",") ++ "\n"

/-- Insert the parameter-override lines at the fixed index `si`. -/
def insertParams (si : Nat) :
    List (String × String) → Bool → List String → List String
  | [], _, contents => contents
  | (p, v) :: rest, first, contents =>
    insertParams si rest false (insertL contents si (paramLine p v first))

/-- Splice one peripheral instance directly above the `endmodule` anchor,
emitting its lines in reverse reading order at the fixed index
`find_idx(contents, "endmodule") - 1`: closing parenthesis, reserved
connections, regular I/O connections, instance name, optional parameter
block, type name, blank line, name comment, blank line. -/
def csvOneInstance (inp : SysIn) (contents : List String) (inst : Periph) :
    List String :=
  let si := find_idx contents "endmodule" - 1
  let contents := insertL contents si "      );\n"
  let reservedLines :=
    ((inp.portList inst.ptype).filter (fun p => p.reserved)).map
      (fun s => "      " ++
        reservedConnection s.name (inp.top.toUpper ++ "_" ++ inst.pname)
          ((inp.topName inst.ptype).toUpper ++ "_SWREG") ++ ",\n")
  let st := insertConnLines si reservedLines (contents, true)
  let pioLines :=
    ((inp.portList inst.ptype).filter (fun p => !p.reserved)).map
      (fun s => ioLine s.name (inp.portMap inst.pname s.name))
  let st := insertConnLines si pioLines st
  let contents := st.1
  let contents := insertL contents si ("   " ++ inst.pname ++ " (\n")
  let contents :=
    if inst.params.length > 0 then
      let contents := insertL contents si "   )\n"
      let contents := insertParams si inst.params true contents
      insertL contents si "     #(\n"
    else contents
  let contents := insertL contents si ("   " ++ inp.topName inst.ptype ++ "\n")
  let contents := insertL contents si "\n"
  let contents := insertL contents si ("   // " ++ inst.pname ++ "\n")
  insertL contents si "\n"

/-- An internal-wire declaration line (entry = (name, n_bits)). -/
def wireLine (w : String × String) : String :=
  "    wire [" ++ w.2 ++ "-1:0] " ++ w.1 ++ "\n"

/-- `createSystem.create_systemv`: `none` models "no output file written"
(the early `return` when the template file does not exist); `some lines`
models the content written to `out_file`.  Python's `if internal_wires:`
treats both `None` and an empty list as false. -/
def create_systemv (inp : SysIn) : Option (List String) :=
  if inp.templateExists = false then none
  else
    let contents := insert_header_files inp.template inp.periphs inp.topName
    let contents := inp.periphs.foldl (csvOneInstance inp) contents
    let contents :=
      match inp.internalWires with
      | none => contents
      | some [] => contents
      | some (w :: ws) =>
        let si := find_idx contents ");"
        let contents :=
          (w :: ws).foldl (fun c wire => insertL c si (wireLine wire)) contents
        insertL contents si "    // Module internal wires\n"
    some contents

/-- The distinct peripheral types in first-seen order that are not yet in
`included` — the types for which the `insert_header_files` loop inserts an
include line. -/
def firstSeenTypes : List Periph → List String → List String
  | [], _ => []
  | inst :: rest, included =>
    if inst.ptype ∈ included then firstSeenTypes rest included
    else inst.ptype :: firstSeenTypes rest (included ++ [inst.ptype])

/-- The concrete scenario of claim C6: a 3-line template, one instance `u0`
of type `T` with a single regular port `data` mapped to signal `w` and no
parameter overrides. -/
def c6inp : SysIn :=
  { templateExists := true,
    template := ["module top(\n", ");\n", "endmodule\n"],
    top := "top",
    periphs := [⟨"T", "u0", []⟩],
    portList := fun t => if t = "T" then [⟨"data", false⟩] else [],
    topName := fun t => if t = "T" then "T" else "",
    portMap := fun i s => if i = "u0" && s = "data" then "w" else "",
    internalWires := none }

/-! ## The dependency setup engine (`iob_module.__setup` and friends)

Per-descriptor-type class attributes (`_setup_purpose`,
`_initialized_attributes`, `is_top_module`, `submodule_list`, `regs`) are
embedded as an explicit state mapping type identifiers to a `ClassState`;
file-system effects become an event trace; Python exceptions become an
error outcome; the unbounded Python recursion becomes a fuel-indexed
interpreter (the fuel only bounds the recursion depth — the termination
claim proves that enough fuel always exists).

Scope notes: `confs`/`ios`/`block_groups` and the build-directory path
never influence a claim, so they are not carried in the state; the external
renderers invoked by `_generate_files`, the `flows_setup` LIB copy, the
`_copy_srcs` tree copy and `_run_setup_files` are opaque effects recorded
as events.  Each descriptor type is modelled with its own `_setup_purpose`
and `_initialized_attributes` slot, which matches the repository's direct
subclasses of `iob_module` (whose own attributes stay `None`/`False`, so
every subclass creates its own). -/
abbrev TypeId := String

abbrev Purpose := String

/-- The two recognized kinds of `submodule_list` entries (a dict is an
interface-generation request for `if_gen`, a class is a submodule to set
up), plus `bad` for anything else, which `_setup_submodules` reports as a
fatal configuration error. -/
inductive SubKind where
  | iface (ifname : String)
  | module (t : TypeId)
  | bad
deriving DecidableEq, Repr

/-- One `submodule_list` entry.  A tuple entry carries a setup-options dict
whose (mutable) `purpose` key is `purposeKey`; a bare entry (`isTuple =
false`) has no persistent options dict (`_setup_submodules` builds a fresh
empty one for it on every iteration) and its `purposeKey` is `none`. -/
structure SubEntryState where
  kind : SubKind
  isTuple : Bool
  purposeKey : Option Purpose
deriving DecidableEq, Repr

/-- A register: only the name takes part in any claim (the remaining fields
`type`, `n_bits`, `rst_val`, `addr`, ... are carried around opaquely by the
source and never branch). -/
structure Reg where
  name : String
deriving DecidableEq, Repr

/-- A register group (an entry of `cls.regs`). -/
structure RegGroup where
  name : String
  descr : String
  regs : List Reg
deriving DecidableEq, Repr

/-- The mutable per-descriptor-type class attributes. -/
structure ClassState where
  setupPurpose : List Purpose := []
  initializedAttributes : Bool := false
  isTopModule : Bool := false
  subs : List SubEntryState := []
  regs : List RegGroup := []
deriving DecidableEq, Repr

/-- The static program: the declared descriptor types with, for each type,
the `submodule_list` built by `_create_submodules_list` and the register
groups contributed by `_setup_regs` during attribute initialization. -/
structure Prog where
  types : List TypeId
  subsOf : TypeId → List SubEntryState
  regsOf : TypeId → List RegGroup

/-- Global interpreter state: one `ClassState` per descriptor type (absent
entries hold the initial class attributes). -/
abbrev St := List (TypeId × ClassState)

def getSt : St → TypeId → ClassState
  | [], _ => {}
  | (u, c) :: rest, t => if u = t then c else getSt rest t

def setSt (t : TypeId) (cs : ClassState) : St → St
  | [] => [(t, cs)]
  | (u, c) :: rest => if u = t then (t, cs) :: rest else (u, c) :: setSt t cs rest

/-- Observable actions of one run.  `bodyEnter t p` marks that the body of
`__setup` past the memoization guard ran for `(t, p)` (the position of the
commented-out debug print); `createBuildDir` writes the build tree and the
copied top-level Makefile; `flowsSetup` and `copySrcs` copy LIB files and
the setup-dir sources into the build directory; `genInterface` and
`genFiles` are the interface-snippet and artifact generation steps;
`replaceIncludes`/`removeDuplicates` are the top-module post-processing
steps. -/
inductive Event where
  | bodyEnter (t : TypeId) (p : Purpose)
  | initAttributes (t : TypeId)
  | createBuildDir (t : TypeId)
  | flowsSetup (t : TypeId)
  | copySrcs (t : TypeId)
  | genInterface (t : TypeId) (ifname : String) (p : Purpose)
  | genFiles (t : TypeId)
  | replaceIncludes (t : TypeId)
  | removeDuplicates (t : TypeId)
deriving DecidableEq, Repr

/-- Result of a run: normal return, an uncaught Python exception (which
aborts the whole run), or fuel exhaustion (never reached with enough fuel,
see the termination theorem). -/
inductive Outcome where
  | ok (s : St) (tr : List Event)
  | err (s : St) (tr : List Event) (msg : String)
  | outOfFuel
deriving DecidableEq, Repr

/-- Sequencing of effectful steps: traces accumulate, errors and fuel
exhaustion propagate. -/
def Outcome.andThen (o : Outcome) (f : St → Outcome) : Outcome :=
  match o with
  | .ok s tr =>
    match f s with
    | .ok s' tr' => .ok s' (tr ++ tr')
    | .err s' tr' m => .err s' (tr ++ tr') m
    | .outOfFuel => .outOfFuel
  | .err s tr m => .err s tr m
  | .outOfFuel => .outOfFuel

def outTrace : Outcome → List Event
  | .ok _ tr => tr
  | .err _ tr _ => tr
  | .outOfFuel => []

def outMsg : Outcome → Option String
  | .err _ _ m => some m
  | _ => none

def outState : Outcome → Option St
  | .ok s _ => some s
  | .err s _ _ => some s
  | .outOfFuel => none

/-- `iob_module.PURPOSE_DIRS`. -/
def PURPOSE_DIRS : List (Purpose × String) :=
  [("hardware", "hardware/src"),
   ("simulation", "hardware/simulation/src"),
   ("fpga", "hardware/fpga/src")]

/-- The `get_purpose_dir` assertion: the purpose must be a `PURPOSE_DIRS`
key. -/
def knownPurpose (p : Purpose) : Bool :=
  (PURPOSE_DIRS.map Prod.fst).contains p

/-- The auto-injected `VERSION` register (only the name matters to the
claims). -/
def versionReg : Reg := ⟨"VERSION"⟩

/-- `iob_module.init_attributes`: guarded by `_initialized_attributes`;
populates the declarative lists and the submodule list from the
descriptor-supplied hooks (`_create_submodules_list`, `_setup_regs`; the
`build_dir`/`previous_version` bookkeeping and the `confs`/`ios` lists play
no part in any claim). -/
def init_attributes (P : Prog) (t : TypeId) (cs : ClassState) :
    ClassState × List Event :=
  if cs.initializedAttributes then (cs, [])
  else
    ({ cs with
        initializedAttributes := true,
        subs := P.subsOf t,
        regs := P.regsOf t },
      [Event.initAttributes t])

/-- The per-entry option resolution of `_setup_submodules`: build the
setup-options dict (the entry's own dict for a tuple, a fresh empty one
otherwise), default the `purpose` key to `"hardware"`, skip the entry when
this class is not the top module and the purpose is not `"hardware"`, and
replace a `"hardware"` purpose by the current class's latest setup purpose
(`get_setup_purpose`, which raises when the history is empty).  Returns the
purpose to proceed with (`none` = skip) and the entry as mutated in place. -/
def resolveEntry (isTop : Bool) (latest? : Option Purpose) (e : SubEntryState) :
    Except String (Option Purpose × SubEntryState) :=
  let opts0 : Option Purpose := if e.isTuple then e.purposeKey else none
  let opts1 : Option Purpose := some (opts0.getD "hardware")
  if ¬ isTop ∧ opts1 ≠ some "hardware" then
    Except.ok (none, if e.isTuple then { e with purposeKey := opts1 } else e)
  else if opts1 = some "hardware" then
    match latest? with
    | none => Except.error "Module has not been setup!"
    | some latest =>
      Except.ok (some latest,
        if e.isTuple then { e with purposeKey := some latest } else e)
  else
    Except.ok (opts1, if e.isTuple then { e with purposeKey := opts1 } else e)

/-- `iob_module.__generate`: computes the destination directory (whose
`get_purpose_dir` lookup asserts a known purpose) and produces the
interface snippet. -/
def genInterfaceStage (t : TypeId) (ifname : String) (purpose : Purpose)
    (s : St) : Outcome :=
  if knownPurpose purpose then .ok s [Event.genInterface t ifname purpose]
  else .err s [] ("Unknown purpose " ++ purpose)

/-- Append a register to the first group named `general` (the object found
by the source's `next(...)` scan, mutated in place). -/
def appendToGeneralFirst : List RegGroup → Reg → List RegGroup
  | [], _ => []
  | g :: gs, r =>
    if g.name = "general" then { g with regs := g.regs ++ [r] } :: gs
    else g :: appendToGeneralFirst gs r

/-- `iob_module._build_regs_table`: nothing to do without registers;
otherwise make sure a `general` group exists, and on the first setup only
(`len(cls._setup_purpose) < 2`) reject a user-declared `VERSION` register
in the `general` group or auto-append the reserved `VERSION` register. -/
def build_regs_table (t : TypeId) (cs : ClassState) : Except String ClassState :=
  if cs.regs.isEmpty then Except.ok cs
  else
    let regs1 :=
      if cs.regs.any (fun g => g.name = "general") then cs.regs
      else cs.regs ++ [{ name := "general", descr := "General Registers.", regs := [] }]
    if cs.setupPurpose.length < 2 then
      match regs1.find? (fun g => g.name = "general") with
      | none => Except.ok { cs with regs := regs1 }
      | some g =>
        if g.regs.any (fun r => r.name = "VERSION") then
          Except.error (t ++ ": Register 'VERSION' is reserved. Please remove it.")
        else Except.ok { cs with regs := appendToGeneralFirst regs1 versionReg }
    else Except.ok { cs with regs := regs1 }

/-- `_generate_files`: `_build_regs_table` (whose failure aborts the run)
followed by the external hw/sw/doc renderers. -/
def generateFilesStage (t : TypeId) (s : St) : Outcome :=
  match build_regs_table t (getSt s t) with
  | .error m => .err s [] m
  | .ok cs' => .ok (setSt t cs' s) [Event.genFiles t]

/-- The entry stage of `__setup` past the memoization guard: on the first
setup record `is_top_module`, run `init_attributes` and (top module only)
create the build directory; then append the purpose to the history. -/
def setupEnterStage (P : Prog) (t : TypeId) (p : Purpose) (is_top_module : Bool)
    (s : St) : Outcome :=
  let cs := getSt s t
  let firstTime := cs.setupPurpose.isEmpty
  let cs1 := if firstTime then { cs with isTopModule := is_top_module } else cs
  let initRes := if firstTime then init_attributes P t cs1 else (cs1, [])
  let trBuild :=
    if is_top_module ∧ firstTime then [Event.createBuildDir t] else []
  let cs3 := { initRes.1 with setupPurpose := initRes.1.setupPurpose ++ [p] }
  Outcome.ok (setSt t cs3 s) (Event.bodyEnter t p :: (initRes.2 ++ trBuild))

/-- `build_srcs.flows_setup(cls)` and `cls._copy_srcs()`: both copy files
into the build directory. -/
def flowsCopyStage (t : TypeId) (s : St) : Outcome :=
  Outcome.ok s [Event.flowsSetup t, Event.copySrcs t]

/-- `_auto_add_settings`: when the module has registers, recursively set up
`iob_ctls` (unless this class is `iob_ctls` itself) for the latest setup
purpose and generate the two standard slave-port snippets.  (The `VERSION`
macro auto-added to `confs` plays no part in any claim.)  `recur` is the
recursive `__setup` call supplied by the interpreter. -/
def autoAddStage (t : TypeId) (recur : Purpose → St → Outcome) (s : St) :
    Outcome :=
  let cs := getSt s t
  if cs.regs.isEmpty then .ok s []
  else
    match cs.setupPurpose.getLast? with
    | none => .err s [] "Module has not been setup!"
    | some latest =>
      (if t ≠ "iob_ctls" then recur latest s else Outcome.ok s [])
        |>.andThen (fun s => genInterfaceStage t "iob_s_port" latest s)
        |>.andThen (fun s => genInterfaceStage t "iob_s_s_portmap" latest s)

/-- The two top-module-only post-processing steps of `_post_setup`. -/
def topFinishStage (t : TypeId) (s : St) : Outcome :=
  if (getSt s t).isTopModule then
    .ok s [Event.replaceIncludes t, Event.removeDuplicates t]
  else .ok s []

/-- The two recursion sites of the engine: `__setup` itself, and the loop of
`_setup_submodules` over the entry list (`i` is the next index, `rem` the
number of remaining iterations, fixed to the list length on entry — the
list's length never changes during a run). -/
inductive SetupCall where
  | setup (t : TypeId) (p : Purpose) (is_top_module : Bool)
  | subs (t : TypeId) (i rem : Nat)
deriving DecidableEq, Repr

/-- The fuel-indexed interpreter of the setup engine.  Python's recursion is
unbounded; here every step consumes one unit of fuel so that the recursion
is structural, and the termination claim shows that a computable amount of
fuel always completes the run.

`.setup t p is_top_module` is `iob_module.__setup`, with its stages in
source order: memoization guard; on the first setup record `is_top_module`,
run `init_attributes` and (top module only) create the build directory;
append the purpose; `_specific_setup` (the `_setup_submodules` recursion —
`_create_instances` and `_setup_block_groups` are no-op defaults);
`_post_setup` (`flows_setup`, `_copy_srcs`, `_auto_add_settings` — which
recursively sets up `iob_ctls` and generates the two standard port snippets
whenever the module has registers —, `_generate_files`, `_run_setup_files`,
and the two top-module-only post-processing steps).

`.subs t i rem` is the loop of `iob_module._setup_submodules`, iterating
the live entry list by index.  Option resolution mutates tuple entries in
place (the state write-back); interface entries go to `__generate`, module
entries recurse into `__setup`, anything else is a fatal configuration
error. -/
def setupRun (P : Prog) : Nat → SetupCall → St → Outcome
  | 0, _, _ => .outOfFuel
  | fuel + 1, .setup t p is_top_module, s =>
    let cs := getSt s t
    if p ∈ cs.setupPurpose ∨ "hardware" ∈ cs.setupPurpose then
      .ok s []
    else
      setupEnterStage P t p is_top_module s
        |>.andThen (fun s =>
          setupRun P fuel (.subs t 0 (getSt s t).subs.length) s)
        |>.andThen (fun s => flowsCopyStage t s)
        |>.andThen (fun s =>
          autoAddStage t
            (fun latest s => setupRun P fuel (.setup "iob_ctls" latest false) s) s)
        |>.andThen (fun s => generateFilesStage t s)
        |>.andThen (fun s => topFinishStage t s)
  | _ + 1, .subs _ _ 0, s => .ok s []
  | fuel + 1, .subs t i (rem + 1), s =>
    let cs := getSt s t
    match cs.subs.get? i with
    | none => .ok s []
    | some e =>
      match resolveEntry cs.isTopModule cs.setupPurpose.getLast? e with
      | .error m => .err s [] m
      | .ok (act, e') =>
        let s1 := setSt t { cs with subs := cs.subs.set i e' } s
        match act with
        | none => setupRun P fuel (.subs t (i + 1) rem) s1
        | some q =>
          match e.kind with
          | .iface ifname =>
            (genInterfaceStage t ifname q s1)
              |>.andThen (fun s => setupRun P fuel (.subs t (i + 1) rem) s)
          | .module u =>
            (setupRun P fuel (.setup u q false) s1)
              |>.andThen (fun s => setupRun P fuel (.subs t (i + 1) rem) s)
          | .bad =>
            .err s1 [] ("Unknown type in submodule_list of " ++ t)

/-- `iob_module.__setup`. -/
def iob_setup (P : Prog) (fuel : Nat) (t : TypeId) (p : Purpose)
    (is_top_module : Bool) (s : St) : Outcome :=
  setupRun P fuel (.setup t p is_top_module) s

/-- `iob_module.setup_as_top_module`, started from the initial class
attributes: purpose defaults to `"hardware"`, `is_top_module` is true. -/
def setup_as_top_module (P : Prog) (fuel : Nat) (t : TypeId) : Outcome :=
  iob_setup P fuel t "hardware" true []

/-- Projection of `resolveEntry`'s result onto the purpose the loop proceeds
with: `some none` = the entry is skipped, `some (some q)` = the entry is
generated / set up with purpose `q`, `none` = `get_setup_purpose` raised. -/
def resolvedPurpose :
    Except String (Option Purpose × SubEntryState) → Option (Option Purpose)
  | .ok (a, _) => some a
  | .error _ => none

/-- A two-descriptor program with a dependency cycle (`a` requires `b`,
`b` requires `a`) plus the auto-added `iob_ctls`.  Used as the concrete
witness input for the claims about the setup engine. -/
def progAB : Prog :=
  { types := ["a", "b", "iob_ctls"],
    subsOf := fun t =>
      if t = "a" then [⟨SubKind.module "b", false, none⟩]
      else if t = "b" then [⟨SubKind.module "a", false, none⟩]
      else [],
    regsOf := fun _ => [] }

/-- A descriptor whose author declared a register named `VERSION` in the
`general` register group (the reserved-register collision scenario). -/
def c4prog : Prog :=
  { types := ["top1", "iob_ctls"],
    subsOf := fun _ => [],
    regsOf := fun t =>
      if t = "top1" then [⟨"general", "General Registers.", [⟨"VERSION"⟩]⟩]
      else [] }

/-- A dependency-free descriptor `t` with register groups `regs` (plus the
auto-added `iob_ctls`): the program family quantified over by the amended
claim C4. -/
def oneModProg (t : TypeId) (regs : List RegGroup) : Prog :=
  { types := [t, "iob_ctls"],
    subsOf := fun _ => [],
    regsOf := fun u => if u = t then regs else [] }

/-- The recorded purposes only ever grow during a run. -/
def stMono (s s' : St) : Prop :=
  ∀ u q, q ∈ (getSt s u).setupPurpose → q ∈ (getSt s' u).setupPurpose

/-- Trace specification of a run from `s` to `s'`: recorded purposes grow,
every `bodyEnter u q` event happens with `q` unrecorded before the run and
recorded after it, and no `(u, q)` body runs twice. -/
def TraceOk (s s' : St) (tr : List Event) : Prop :=
  stMono s s' ∧
  (∀ u q, Event.bodyEnter u q ∈ tr →
    q ∉ (getSt s u).setupPurpose ∧ q ∈ (getSt s' u).setupPurpose) ∧
  (∀ u q, tr.count (Event.bodyEnter u q) ≤ 1)

/-- `TraceOk` lifted to outcomes (fuel exhaustion discards the trace). -/
def OutSpec (s : St) : Outcome → Prop
  | .ok s' tr => TraceOk s s' tr
  | .err s' tr _ => TraceOk s s' tr
  | .outOfFuel => True

/-- Number of purposes of the universe `U` not yet recorded for one type. -/
def missingAt (U : List Purpose) (rec : List Purpose) : Nat :=
  (U.filter (fun q => decide (q ∉ rec))).length

/-- Number of (type, purpose) pairs not yet recorded: the quantity each
body execution strictly decreases. -/
def missingCount (P : Prog) (U : List Purpose) (s : St) : Nat :=
  (P.types.map (fun t => missingAt U (getSt s t).setupPurpose)).sum

/-- A `submodule_list` entry is closed under the program's types and the
purpose universe `U`. -/
def entryClosed (P : Prog) (U : List Purpose) (e : SubEntryState) : Bool :=
  (match e.kind with
   | SubKind.module u => P.types.contains u
   | _ => true) &&
  (match e.purposeKey with
   | some q => U.contains q
   | none => true)

/-- The program is closed: the implicit `"hardware"` default and the
auto-added `iob_ctls` are covered, every declared entry points into
`P.types` with a purpose from `U`, and `L` bounds every submodule-list
length. -/
def ClosedProg (P : Prog) (U : List Purpose) (L : Nat) : Prop :=
  "hardware" ∈ U ∧ "iob_ctls" ∈ P.types ∧
  ∀ t ∈ P.types,
    (∀ e ∈ P.subsOf t, entryClosed P U e = true) ∧ (P.subsOf t).length ≤ L

/-- Run-time states reachable from the initial one in a closed program:
recorded purposes lie in `U` and the materialized submodule lists are
closed and bounded. -/
def InvSt (P : Prog) (U : List Purpose) (L : Nat) (s : St) : Prop :=
  ∀ t,
    (∀ q ∈ (getSt s t).setupPurpose, q ∈ U) ∧
    (∀ e ∈ (getSt s t).subs, entryClosed P U e = true) ∧
    (getSt s t).subs.length ≤ L

/-- Recognizer for `bodyEnter` events (used to state the at-most-once
property of the memoization). -/
def isBodyEnter : Event → Bool
  | Event.bodyEnter _ _ => true
  | _ => false

def TotalRun (P : Prog) (U : List Purpose) (L : Nat) (s : St) (o : Outcome) :
    Prop :=
  o ≠ Outcome.outOfFuel ∧
  ∀ s' tr, o = Outcome.ok s' tr → InvSt P U L s' ∧ stMono s s'

def SetupPre (P : Prog) (U : List Purpose) (L : Nat) (fuel : Nat) :
    SetupCall → St → Prop
  | SetupCall.setup t p _, s =>
      t ∈ P.types ∧ p ∈ U ∧ 1 + (L + 2) * missingCount P U s ≤ fuel
  | SetupCall.subs t _ rem, s =>
      t ∈ P.types ∧ 2 + rem + (L + 2) * missingCount P U s ≤ fuel

/-! ### Helper lemmas about `dictGet` / `dictUpdate` -/
theorem dictGet_append {V : Type} (l1 l2 : List (String × V)) (k : String) :
    dictGet (l1 ++ l2) k =
      match dictGet l1 k with
      | some v => some v
      | none => dictGet l2 k := by
  induction l1 with
  | nil => simp [dictGet]
  | cons kv l1 ih =>
    obtain ⟨a, v⟩ := kv
    by_cases h : a = k
    · simp [dictGet, h]
    · simp [dictGet, h, ih]

theorem dictGet_map_override {V : Type} (d1 d2 : List (String × V)) (k : String) :
    dictGet (d1.map (fun kv => (kv.1, (dictGet d2 kv.1).getD kv.2))) k =
      (dictGet d1 k).map (fun v => (dictGet d2 k).getD v) := by
  induction d1 with
  | nil => simp [dictGet]
  | cons kv d1 ih =>
    obtain ⟨a, v⟩ := kv
    by_cases h : a = k
    · subst h; simp [dictGet]
    · simp [dictGet, h, ih]

theorem dictGet_filter_congr {V : Type} (k : String) (l : List (String × V))
    (p q : String × V → Bool) (h : ∀ v, p (k, v) = q (k, v)) :
    dictGet (l.filter p) k = dictGet (l.filter q) k := by
  induction l with
  | nil => simp
  | cons kv l ih =>
    obtain ⟨a, v⟩ := kv
    by_cases ha : a = k
    · subst ha
      cases hp : p (a, v) with
      | true =>
        have hq : q (a, v) = true := (h v) ▸ hp
        simp [List.filter, hp, hq, dictGet]
      | false =>
        have hq : q (a, v) = false := (h v) ▸ hp
        simp [List.filter, hp, hq, ih]
    · cases hp : p (a, v) <;> cases hq : q (a, v) <;>
        simp [List.filter, hp, hq, dictGet, ha, ih]

/-- Keys present in the second dict take the second dict's value. -/
theorem dictGet_dictUpdate_some {V : Type} (d1 d2 : List (String × V))
    (k : String) (u : V) (h : dictGet d2 k = some u) :
    dictGet (dictUpdate d1 d2) k = some u := by
  unfold dictUpdate
  rw [dictGet_append, dictGet_map_override]
  cases h1 : dictGet d1 k with
  | some v => simp [h]
  | none =>
    simp only [Option.map_none']
    have : dictGet (List.filter (fun kv => (dictGet d1 kv.1).isNone) d2) k =
        dictGet (List.filter (fun _ => true) d2) k := by
      apply dictGet_filter_congr
      intro v
      simp [h1]
    simpa [List.filter_true, h] using this

/-- Keys absent from the second dict keep the first dict's value. -/
theorem dictGet_dictUpdate_none {V : Type} (d1 d2 : List (String × V))
    (k : String) (h : dictGet d2 k = none) :
    dictGet (dictUpdate d1 d2) k = dictGet d1 k := by
  unfold dictUpdate
  rw [dictGet_append, dictGet_map_override]
  cases h1 : dictGet d1 k with
  | some v => simp [h]
  | none =>
    simp only [Option.map_none']
    have : dictGet (List.filter (fun kv => (dictGet d1 kv.1).isNone) d2) k =
        dictGet (List.filter (fun _ => true) d2) k := by
      apply dictGet_filter_congr
      intro v
      simp [h1]
    simpa [List.filter_true, h] using this

theorem map_if_name_eq_self {V : Type} (ds : List (DItem V)) (n : String)
    (f : DItem V → DItem V) (h : n ∉ itemNames ds) :
    ds.map (fun d => if d.name = n then f d else d) = ds := by
  induction ds with
  | nil => rfl
  | cons d ds ih =>
    simp only [itemNames, List.map_cons, List.mem_cons] at h
    push_neg at h
    have hne : ¬ d.name = n := fun hw => h.1 hw.symm
    simp only [List.map_cons, if_neg hne, ih (by simpa [itemNames] using h.2)]

theorem insertItem_of_mem {V : Type} (dl : List (DItem V)) (it : DItem V)
    (hnd : (itemNames dl).Nodup) (h : it.name ∈ itemNames dl) :
    insertItem dl it = dl.map (fun d => if d.name = it.name then itemUpdate d it else d) := by
  induction dl with
  | nil => simp [itemNames] at h
  | cons d ds ih =>
    simp only [itemNames, List.map_cons, List.nodup_cons] at hnd
    by_cases hd : d.name = it.name
    · have hnot : it.name ∉ itemNames ds := by
        intro hmem
        exact hnd.1 (hd ▸ hmem)
      simp only [insertItem, if_pos hd, List.map_cons, if_pos hd,
        map_if_name_eq_self ds it.name _ hnot]
    · simp only [itemNames, List.map_cons, List.mem_cons] at h
      rcases h with h | h
      · exact absurd h.symm hd
      · simp [insertItem, hd, ih hnd.2 (by simpa [itemNames] using h)]

theorem insertItem_of_not_mem {V : Type} (dl : List (DItem V)) (it : DItem V)
    (h : it.name ∉ itemNames dl) :
    insertItem dl it = dl ++ [it] := by
  induction dl with
  | nil => rfl
  | cons d ds ih =>
    simp only [itemNames, List.map_cons, List.mem_cons] at h
    push_neg at h
    have hne : ¬ d.name = it.name := fun hw => h.1 hw.symm
    simp [insertItem, hne, ih (by simpa [itemNames] using h.2)]

theorem itemNames_insertItem {V : Type} (dl : List (DItem V)) (it : DItem V) :
    itemNames (insertItem dl it) =
      if it.name ∈ itemNames dl then itemNames dl else itemNames dl ++ [it.name] := by
  induction dl with
  | nil => simp [insertItem, itemNames]
  | cons d ds ih =>
    by_cases hd : d.name = it.name
    · have hcond : it.name ∈ itemNames (d :: ds) := by
        simp only [itemNames, List.map_cons, List.mem_cons]
        exact Or.inl hd.symm
      rw [if_pos hcond]
      simp only [insertItem, if_pos hd]
      simp [itemNames, itemUpdate, hd]
    · have hiff : (it.name ∈ itemNames (d :: ds)) ↔ (it.name ∈ itemNames ds) := by
        simp only [itemNames, List.map_cons, List.mem_cons]
        constructor
        · rintro (h | h)
          · exact absurd h.symm hd
          · exact h
        · exact Or.inr
      simp only [insertItem, if_neg hd]
      by_cases hmem : it.name ∈ itemNames ds
      · rw [if_pos (hiff.mpr hmem)]
        have ih' := ih
        rw [if_pos hmem] at ih'
        simp only [itemNames, List.map_cons] at *
        rw [ih']
      · rw [if_neg (fun hw => hmem (hiff.mp hw))]
        have ih' := ih
        rw [if_neg hmem] at ih'
        simp only [itemNames, List.map_cons] at *
        rw [ih', List.cons_append]

theorem mem_itemNames_insertItem {V : Type} (dl : List (DItem V)) (it : DItem V)
    (x : String) :
    x ∈ itemNames (insertItem dl it) ↔ x ∈ itemNames dl ∨ x = it.name := by
  rw [itemNames_insertItem]
  by_cases hmem : it.name ∈ itemNames dl
  · rw [if_pos hmem]
    constructor
    · exact Or.inl
    · rintro (h | h)
      · exact h
      · exact h ▸ hmem
  · rw [if_neg hmem]
    simp [List.mem_append]

theorem nodup_itemNames_insertItem {V : Type} (dl : List (DItem V)) (it : DItem V)
    (hnd : (itemNames dl).Nodup) : (itemNames (insertItem dl it)).Nodup := by
  rw [itemNames_insertItem]
  by_cases hmem : it.name ∈ itemNames dl
  · rw [if_pos hmem]; exact hnd
  · rw [if_neg hmem]
    simp only [List.nodup_append, List.nodup_cons, List.nodup_nil, and_true,
      List.disjoint_singleton]
    exact ⟨hnd, by simpa using fun h => hmem h⟩

theorem toFinset_itemNames_insertItem {V : Type} (dl : List (DItem V)) (it : DItem V) :
    (itemNames (insertItem dl it)).toFinset = insert it.name (itemNames dl).toFinset := by
  rw [itemNames_insertItem]
  by_cases hmem : it.name ∈ itemNames dl
  · rw [if_pos hmem]
    ext x
    simp only [List.mem_toFinset, Finset.mem_insert]
    constructor
    · exact Or.inr
    · rintro (h | h)
      · exact h ▸ hmem
      · exact h
  · rw [if_neg hmem]
    ext x
    simp only [List.toFinset_append, List.mem_toFinset, Finset.mem_insert,
      Finset.mem_union, List.toFinset_cons, List.toFinset_nil]
    simp [or_comm]

theorem mem_itemNames_update_dict_list {V : Type} (dl new_items : List (DItem V))
    (x : String) :
    x ∈ itemNames (update_dict_list dl new_items) ↔
      x ∈ itemNames dl ∨ x ∈ itemNames new_items := by
  induction new_items generalizing dl with
  | nil => simp [update_dict_list, itemNames]
  | cons it rest ih =>
    have : update_dict_list dl (it :: rest) = update_dict_list (insertItem dl it) rest := rfl
    rw [this, ih, mem_itemNames_insertItem]
    simp only [itemNames, List.map_cons, List.mem_cons]
    tauto

theorem update_dict_list_length {V : Type} (dl new_items : List (DItem V))
    (hnd : (itemNames dl).Nodup) :
    (update_dict_list dl new_items).length =
      ((dl ++ new_items).map DItem.name).dedup.length := by
  induction new_items generalizing dl with
  | nil =>
    simp only [update_dict_list, List.foldl_nil, List.append_nil]
    have hnd' : (List.map DItem.name dl).Nodup := hnd
    rw [List.dedup_eq_self.mpr hnd', List.length_map]
  | cons it rest ih =>
    have hstep : update_dict_list dl (it :: rest) = update_dict_list (insertItem dl it) rest := rfl
    rw [hstep, ih (insertItem dl it) (nodup_itemNames_insertItem dl it hnd)]
    rw [← List.card_toFinset, ← List.card_toFinset]
    congr 1
    rw [List.map_append, List.map_append, List.toFinset_append, List.toFinset_append,
      List.map_cons, List.toFinset_cons]
    have : (List.map DItem.name (insertItem dl it)).toFinset =
        insert it.name (List.map DItem.name dl).toFinset :=
      toFinset_itemNames_insertItem dl it
    rw [this]
    ext x
    simp only [Finset.mem_union, Finset.mem_insert]
    tauto

/-! ### Claim C3 -/
/-- C3 counterexample: the claim quantifies over every list of named entries,
but when the existing list itself contains two entries with the same name the
resulting list's length is not the number of distinct names.  Here the
existing list holds two entries named `a`, `update_dict_list` with no new
items leaves it untouched (length 2), while the number of distinct names
is 1. -/
theorem c3_counterexample_update_dict_list :
    (update_dict_list
        [(⟨"a", [("x", 1)]⟩ : DItem Nat), ⟨"a", [("x", 2)]⟩] []).length ≠
      ((([(⟨"a", [("x", 1)]⟩ : DItem Nat), ⟨"a", [("x", 2)]⟩] ++
          ([] : List (DItem Nat))).map DItem.name).dedup).length := by
  decide

/-- C3 (amended): provided the existing list's entry names are pairwise
distinct, `update_dict_list` merges each new item whose name matches an
existing entry into that entry, field by field (keys present in the new item
take its values, all other keys keep the existing values), at the entry's
existing position; appends each new item with a fresh name; the resulting
length is the number of distinct names; and no contributed name is ever
dropped. -/
theorem c3_update_dict_list_merge_law {V : Type} (dl new_items : List (DItem V))
    (hnd : (dl.map DItem.name).Nodup) :
    (∀ it : DItem V, it.name ∈ dl.map DItem.name →
        insertItem dl it =
          dl.map (fun d => if d.name = it.name then itemUpdate d it else d)) ∧
    (∀ (d it : DItem V) (k : String) (u : V),
        dictGet it.fields k = some u →
          dictGet (itemUpdate d it).fields k = some u) ∧
    (∀ (d it : DItem V) (k : String),
        dictGet it.fields k = none →
          dictGet (itemUpdate d it).fields k = dictGet d.fields k) ∧
    (∀ it : DItem V, it.name ∉ dl.map DItem.name → insertItem dl it = dl ++ [it]) ∧
    (update_dict_list dl new_items).length =
      ((dl ++ new_items).map DItem.name).dedup.length ∧
    (∀ n, n ∈ (dl ++ new_items).map DItem.name ↔
        n ∈ (update_dict_list dl new_items).map DItem.name) := by
  refine ⟨fun it h => insertItem_of_mem dl it hnd h,
    fun d it k u h => dictGet_dictUpdate_some d.fields it.fields k u h,
    fun d it k h => dictGet_dictUpdate_none d.fields it.fields k h,
    fun it h => insertItem_of_not_mem dl it h,
    update_dict_list_length dl new_items hnd,
    fun n => ?_⟩
  have := mem_itemNames_update_dict_list dl new_items n
  simp only [itemNames] at this
  rw [List.map_append, List.mem_append]
  exact this.symm

/-- C3 witness: the amended theorem applied at a concrete input with one
merged and one appended item. -/
theorem c3_update_dict_list_merge_law_witness :
    ((([⟨"a", [("x", 1)]⟩, ⟨"b", [("y", 5)]⟩] : List (DItem Nat)).map DItem.name).Nodup) ∧
    ((update_dict_list ([⟨"a", [("x", 1)]⟩, ⟨"b", [("y", 5)]⟩] : List (DItem Nat))
        ([⟨"a", [("x", 2)]⟩, ⟨"c", []⟩] : List (DItem Nat))).length =
      (((([⟨"a", [("x", 1)]⟩, ⟨"b", [("y", 5)]⟩] : List (DItem Nat)) ++
          ([⟨"a", [("x", 2)]⟩, ⟨"c", []⟩] : List (DItem Nat))).map DItem.name).dedup).length) :=
  ⟨by decide,
    (c3_update_dict_list_merge_law
        ([⟨"a", [("x", 1)]⟩, ⟨"b", [("y", 5)]⟩] : List (DItem Nat))
        ([⟨"a", [("x", 2)]⟩, ⟨"c", []⟩] : List (DItem Nat)) (by decide)).2.2.2.2.1⟩

/-! ### Occurrence factorization of `pyReplace` -/
theorem joinWith_cons_cons (sep : List Char) (c : Char) (u : List Char)
    (us : List (List Char)) :
    joinWith sep ((c :: u) :: us) = c :: joinWith sep (u :: us) := by
  cases us with
  | nil => rfl
  | cons w ws => simp [joinWith, List.cons_append]

theorem prefix_joinWith (sep : List Char) (u : List Char) (us : List (List Char)) :
    u <+: joinWith sep (u :: us) := by
  cases us with
  | nil => exact List.prefix_refl u
  | cons w ws =>
    show u <+: u ++ sep ++ joinWith sep (w :: ws)
    rw [List.append_assoc]
    exact List.prefix_append u _

theorem pyReplaceAux_nil (pat rep : List Char) (n : Nat) :
    pyReplaceAux pat rep n [] = [] := by
  cases n <;> rfl

/-- Structure theorem for Python `replace`: the input splits into segments
separated by the replaced (leftmost, non-overlapping) occurrences of `pat`,
no segment contains an occurrence of `pat`, and the output is exactly the
same segments joined by `rep` — in particular all text outside the matched
occurrences is preserved verbatim. -/
theorem pyReplace_spec (pat rep : List Char) (hpat : pat ≠ []) (s : List Char) :
    ∃ parts : List (List Char), parts ≠ [] ∧
      s = joinWith pat parts ∧
      pyReplace pat rep s = joinWith rep parts ∧
      ∀ u ∈ parts, ¬ pat <:+: u := by
  have main : ∀ (n : Nat) (s : List Char), s.length ≤ n →
      ∃ parts : List (List Char), parts ≠ [] ∧
        s = joinWith pat parts ∧
        pyReplaceAux pat rep n s = joinWith rep parts ∧
        ∀ u ∈ parts, ¬ pat <:+: u := by
    intro n
    induction n with
    | zero =>
      intro s hs
      have hsnil : s = [] := List.length_eq_zero.mp (Nat.le_zero.mp hs)
      subst hsnil
      refine ⟨[[]], by simp, by simp [joinWith], by simp [joinWith, pyReplaceAux_nil], ?_⟩
      intro u hu
      simp only [List.mem_singleton] at hu
      subst hu
      intro hinf
      exact hpat (List.infix_nil.mp hinf)
    | succ n ih =>
      intro s hs
      cases s with
      | nil =>
        refine ⟨[[]], by simp, by simp [joinWith], by simp [joinWith, pyReplaceAux_nil], ?_⟩
        intro u hu
        simp only [List.mem_singleton] at hu
        subst hu
        intro hinf
        exact hpat (List.infix_nil.mp hinf)
      | cons c cs =>
        by_cases h : pat.isPrefixOf (c :: cs)
        · have hpre : pat <+: c :: cs := List.isPrefixOf_iff_prefix.mp h
          obtain ⟨t, ht⟩ := hpre
          have hdrop : cs.drop (pat.length - 1) = t := by
            have h1 : (pat ++ t).drop pat.length = t := List.drop_left pat t
            rw [ht] at h1
            cases hp : pat with
            | nil => exact absurd hp hpat
            | cons p ps =>
              rw [hp] at h1
              simpa using h1
          have hstep : pyReplaceAux pat rep (n + 1) (c :: cs) =
              rep ++ pyReplaceAux pat rep n (cs.drop (pat.length - 1)) := by
            show (if pat ≠ [] ∧ pat.isPrefixOf (c :: cs) then
                rep ++ pyReplaceAux pat rep n (cs.drop (pat.length - 1))
              else c :: pyReplaceAux pat rep n cs) = _
            rw [if_pos ⟨hpat, h⟩]
          have hlen : t.length ≤ n := by
            have h2 : cs.length ≤ n := by
              simpa using hs
            rw [← hdrop]
            calc (cs.drop (pat.length - 1)).length ≤ cs.length := by
                  simp [List.length_drop]
              _ ≤ n := h2
          obtain ⟨parts, hne, hjoin, hrep, hfree⟩ := ih t hlen
          cases parts with
          | nil => exact absurd rfl hne
          | cons p ps =>
            refine ⟨[] :: p :: ps, by simp, ?_, ?_, ?_⟩
            · show c :: cs = joinWith pat ([] :: p :: ps)
              have : joinWith pat ([] :: p :: ps) = [] ++ pat ++ joinWith pat (p :: ps) := rfl
              rw [this, ← hjoin, List.nil_append, ht]
            · rw [hstep, hdrop, hrep]
              rfl
            · intro u hu
              rcases List.mem_cons.mp hu with hu | hu
              · subst hu
                intro hinf
                exact hpat (List.infix_nil.mp hinf)
              · exact hfree u hu
        · have hcons : pyReplaceAux pat rep (n + 1) (c :: cs) =
              c :: pyReplaceAux pat rep n cs := by
            show (if pat ≠ [] ∧ pat.isPrefixOf (c :: cs) then
                rep ++ pyReplaceAux pat rep n (cs.drop (pat.length - 1))
              else c :: pyReplaceAux pat rep n cs) = _
            rw [if_neg (fun hc => h hc.2)]
          have hlen : cs.length ≤ n := by simpa using hs
          obtain ⟨parts, hne, hjoin, hrep, hfree⟩ := ih cs hlen
          cases parts with
          | nil => exact absurd rfl hne
          | cons u us =>
            refine ⟨(c :: u) :: us, by simp, ?_, ?_, ?_⟩
            · rw [joinWith_cons_cons, ← hjoin]
            · rw [hcons, hrep, joinWith_cons_cons]
            · intro v hv
              rcases List.mem_cons.mp hv with hv | hv
              · subst hv
                intro hinf
                rcases List.infix_cons_iff.mp hinf with hpre | hinf2
                · have hu_cs : (c :: u) <+: (c :: cs) := by
                    have hu2 : u <+: cs := hjoin ▸ prefix_joinWith pat u us
                    obtain ⟨t2, ht2⟩ := hu2
                    exact ⟨t2, by simp [ht2]⟩
                  have : pat <+: (c :: cs) := hpre.trans hu_cs
                  exact h (List.isPrefixOf_iff_prefix.mpr this)
                · exact hfree u (List.mem_cons_self u us) hinf2
              · exact hfree v (List.mem_cons_of_mem u hv)
  exact main s.length s (Nat.le_refl _)

theorem hasInfix_iff (pat s : List Char) : hasInfix pat s = true ↔ pat <:+: s := by
  induction s with
  | nil =>
    simp only [hasInfix, List.isEmpty_iff, List.infix_nil]
  | cons c cs ih =>
    simp only [hasInfix, Bool.or_eq_true, List.isPrefixOf_iff_prefix, ih,
      List.infix_cons_iff]

theorem renameStr_factored (old new : List Char) (hold : old ≠ []) (l : List Char) :
    RenameFactored old new l (renameStr old new l) := by
  have hupper : upperStr old ≠ [] := by
    simpa [upperStr, List.map_eq_nil_iff] using hold
  obtain ⟨parts1, h1, h2, h3, h4⟩ := pyReplace_spec old new hold l
  obtain ⟨parts2, g1, g2, g3, g4⟩ :=
    pyReplace_spec (upperStr old) (upperStr new) hupper (pyReplace old new l)
  exact ⟨parts1, parts2, h1, g1, h2, h3, h4, g2, g3, g4⟩

/-! ### Claim C5 -/
/-- C5 counterexample: replacement can re-create an occurrence of the old
name, so "no occurrence of old_name remains" fails.  With
`old_name = "ab"`, `new_name = "a"` and a text file whose single line is
`"abb"`, Python computes `"abb".replace("ab","a") = "ab"` (the upper-case
pass changes nothing), so the destination content still contains `"ab"`. -/
theorem c5_counterexample_copy_with_rename :
    (copy_with_rename ['a', 'b'] ['a']
        ⟨['f'], [['a', 'b', 'b']], 420, true⟩).lines = [['a', 'b']] ∧
    ['a', 'b'] <:+:
      ((copy_with_rename ['a', 'b'] ['a']
          ⟨['f'], [['a', 'b', 'b']], 420, true⟩).lines.headD []) :=
  ⟨by decide, (hasInfix_iff _ _).mp (by decide)⟩

/-- C5 (amended): for a nonempty old name, the copy function preserves the
permission bits, copies unreadable-as-text files byte-for-byte unmodified,
and otherwise transforms the file name and every content line by the two
leftmost non-overlapping replacements `old → new` then `OLD → NEW`; all text
outside the matched occurrences is preserved byte-for-byte
(`RenameFactored`).  (The original claim's stronger "no occurrence of
old_name remains" is refuted by `c5_counterexample_copy_with_rename`: a
replacement may re-create an occurrence by juxtaposition.) -/
theorem c5_copy_with_rename_semantics (old new : List Char) (f : SrcFile)
    (hold : old ≠ []) :
    (copy_with_rename old new f).perms = f.perms ∧
    (f.textReadable = false → (copy_with_rename old new f).lines = f.lines) ∧
    RenameFactored old new f.basename (copy_with_rename old new f).basename ∧
    (f.textReadable = true →
      List.Forall₂ (RenameFactored old new) f.lines (copy_with_rename old new f).lines) := by
  refine ⟨rfl, ?_, ?_, ?_⟩
  · intro h
    simp [copy_with_rename, h]
  · exact renameStr_factored old new hold f.basename
  · intro h
    have hlines : (copy_with_rename old new f).lines = f.lines.map (renameStr old new) := by
      simp [copy_with_rename, h]
    rw [hlines, List.forall₂_map_right_iff]
    rw [List.forall₂_same]
    intro x _
    exact renameStr_factored old new hold x

/-- C5 witness: the amended theorem applied to a concrete readable file. -/
theorem c5_copy_with_rename_semantics_witness :
    (['i', 'o', 'b'] : List Char) ≠ [] ∧
    ((copy_with_rename ['i', 'o', 'b'] ['u', 'a', 'r', 't']
        ⟨['i', 'o', 'b', '.', 'v'], [['i', 'o', 'b', '_', 'x']], 493, true⟩).perms =
      (SrcFile.mk ['i', 'o', 'b', '.', 'v'] [['i', 'o', 'b', '_', 'x']] 493 true).perms ∧
    ((SrcFile.mk ['i', 'o', 'b', '.', 'v'] [['i', 'o', 'b', '_', 'x']] 493 true).textReadable = false →
      (copy_with_rename ['i', 'o', 'b'] ['u', 'a', 'r', 't']
          ⟨['i', 'o', 'b', '.', 'v'], [['i', 'o', 'b', '_', 'x']], 493, true⟩).lines =
        (SrcFile.mk ['i', 'o', 'b', '.', 'v'] [['i', 'o', 'b', '_', 'x']] 493 true).lines) ∧
    RenameFactored ['i', 'o', 'b'] ['u', 'a', 'r', 't']
      (SrcFile.mk ['i', 'o', 'b', '.', 'v'] [['i', 'o', 'b', '_', 'x']] 493 true).basename
      (copy_with_rename ['i', 'o', 'b'] ['u', 'a', 'r', 't']
          ⟨['i', 'o', 'b', '.', 'v'], [['i', 'o', 'b', '_', 'x']], 493, true⟩).basename ∧
    ((SrcFile.mk ['i', 'o', 'b', '.', 'v'] [['i', 'o', 'b', '_', 'x']] 493 true).textReadable = true →
      List.Forall₂ (RenameFactored ['i', 'o', 'b'] ['u', 'a', 'r', 't'])
        (SrcFile.mk ['i', 'o', 'b', '.', 'v'] [['i', 'o', 'b', '_', 'x']] 493 true).lines
        (copy_with_rename ['i', 'o', 'b'] ['u', 'a', 'r', 't']
            ⟨['i', 'o', 'b', '.', 'v'], [['i', 'o', 'b', '_', 'x']], 493, true⟩).lines)) :=
  ⟨by decide,
    c5_copy_with_rename_semantics ['i', 'o', 'b'] ['u', 'a', 'r', 't']
      ⟨['i', 'o', 'b', '.', 'v'], [['i', 'o', 'b', '_', 'x']], 493, true⟩ (by decide)⟩

/-! ### Claims C6 and C8 -/
/-- C6: on the 3-line template scenario the produced file contains, between
the port-list-end line (index 1) and the `endmodule` line (index 9), exactly
one instantiation of `T` named `u0`, whose single connection line is
`.data(w)` with no trailing comma. -/
theorem c6_create_systemv_template_splice :
    create_systemv c6inp =
      some ["module top(\n", ");\n", "\n", "   // u0\n", "\n", "   T\n",
        "   u0 (\n", "      .data(w)\n", "      );\n", "endmodule\n",
        "`include \"T_swreg_def.vh\"\n"] ∧
    (((create_systemv c6inp).getD []).take 9).drop 2 =
      ["\n", "   // u0\n", "\n", "   T\n", "   u0 (\n", "      .data(w)\n",
        "      );\n"] ∧
    ((create_systemv c6inp).getD []).count "   u0 (\n" = 1 ∧
    ((create_systemv c6inp).getD []).count "   T\n" = 1 ∧
    ((create_systemv c6inp).getD []).count "      .data(w)\n" = 1 ∧
    ((create_systemv c6inp).getD []).count "      .data(w),\n" = 0 := by
  refine ⟨?_, ?_, ?_, ?_, ?_, ?_⟩ <;> decide

/-- C8: when the template file does not exist, `create_systemv` returns
without error and writes nothing. -/
theorem c8_create_systemv_missing_template_noop (inp : SysIn)
    (h : inp.templateExists = false) :
    create_systemv inp = none := by
  simp [create_systemv, h]

/-- C8 witness: the theorem applied to a concrete input without a template. -/
theorem c8_create_systemv_missing_template_noop_witness :
    (SysIn.mk false ["endmodule\n"] "top" [] (fun _ => []) (fun _ => "")
        (fun _ _ => "") none).templateExists = false ∧
    create_systemv
        (SysIn.mk false ["endmodule\n"] "top" [] (fun _ => []) (fun _ => "")
          (fun _ _ => "") none) = none :=
  ⟨rfl, c8_create_systemv_missing_template_noop _ rfl⟩

/-! ### Claim C7 -/
theorem findMarker_lt_length (word : String) :
    ∀ (l : List String) (i : Nat), findMarker word l = some i → i < l.length := by
  intro l
  induction l with
  | nil => intro i h; simp [findMarker] at h
  | cons a ls ih =>
    intro i h
    by_cases hc : strContains a word
    · simp only [findMarker, if_pos hc, Option.some.injEq] at h
      subst h
      simp
    · simp only [findMarker, if_neg hc, Option.map_eq_some'] at h
      obtain ⟨j, hj, rfl⟩ := h
      have := ih j hj
      simp only [List.length_cons]
      omega

theorem insertHeadersLoop_spec (topName : String → String) (pre post : List String) :
    ∀ (periphs : List Periph) (included : List String) (mid : List String),
      insertHeadersLoop topName pre.length periphs included (pre ++ (mid ++ post)) =
        pre ++ (((firstSeenTypes periphs included).reverse.map
          (fun t => includeLine (topName t))) ++ mid ++ post) := by
  intro periphs
  induction periphs with
  | nil => intro included mid; simp [insertHeadersLoop, firstSeenTypes]
  | cons inst rest ih =>
    intro included mid
    by_cases hmem : inst.ptype ∈ included
    · simp only [insertHeadersLoop, if_pos hmem, firstSeenTypes]
      exact ih included mid
    · simp only [insertHeadersLoop, if_neg hmem, firstSeenTypes]
      have hins : insertL (pre ++ (mid ++ post)) pre.length
          (includeLine (topName inst.ptype)) =
          pre ++ ((includeLine (topName inst.ptype) :: mid) ++ post) := by
        unfold insertL
        rw [List.take_left, List.drop_left]
        simp
      rw [hins, ih (included ++ [inst.ptype]) (includeLine (topName inst.ptype) :: mid)]
      simp [List.append_assoc]

theorem firstSeenTypes_spec :
    ∀ (periphs : List Periph) (included : List String),
      (∀ t ∈ firstSeenTypes periphs included, t ∉ included) ∧
      (firstSeenTypes periphs included).Nodup ∧
      (∀ t, t ∈ firstSeenTypes periphs included ↔
        t ∈ periphs.map Periph.ptype ∧ t ∉ included) := by
  intro periphs
  induction periphs with
  | nil => intro included; simp [firstSeenTypes]
  | cons inst rest ih =>
    intro included
    by_cases hmem : inst.ptype ∈ included
    · simp only [firstSeenTypes, if_pos hmem]
      obtain ⟨h1, h2, h3⟩ := ih included
      refine ⟨h1, h2, fun t => ?_⟩
      rw [h3 t]
      simp only [List.map_cons, List.mem_cons]
      constructor
      · rintro ⟨ha, hb⟩
        exact ⟨Or.inr ha, hb⟩
      · rintro ⟨ha | ha, hb⟩
        · exact absurd (ha ▸ hmem) hb
        · exact ⟨ha, hb⟩
    · simp only [firstSeenTypes, if_neg hmem]
      obtain ⟨h1, h2, h3⟩ := ih (included ++ [inst.ptype])
      refine ⟨?_, ?_, ?_⟩
      · intro t ht
        rcases List.mem_cons.mp ht with ht | ht
        · exact ht ▸ hmem
        · intro hin
          exact h1 t ht (List.mem_append_left _ hin)
      · rw [List.nodup_cons]
        refine ⟨fun hin => ?_, h2⟩
        exact h1 inst.ptype hin (List.mem_append_right _ (List.mem_singleton.mpr rfl))
      · intro t
        simp only [List.mem_cons, List.map_cons]
        constructor
        · rintro (rfl | ht)
          · exact ⟨Or.inl rfl, hmem⟩
          · obtain ⟨ha, hb⟩ := (h3 t).mp ht
            refine ⟨Or.inr ha, fun hin => hb (List.mem_append_left _ hin)⟩
        · rintro ⟨ha, hb⟩
          rcases ha with rfl | ha
          · exact Or.inl rfl
          · by_cases hteq : t = inst.ptype
            · exact Or.inl hteq
            · refine Or.inr ((h3 t).mpr ⟨ha, ?_⟩)
              intro hin
              rcases List.mem_append.mp hin with hin | hin
              · exact hb hin
              · exact hteq (List.mem_singleton.mp hin)

/-- C7 counterexample: with two distinct peripheral types `A` then `B`, the
include lines end up after the marker in the order `B`, `A` — the reverse of
first-occurrence order — because every insertion reuses the fixed index
computed before the loop and displaces earlier insertions downward. -/
theorem c7_counterexample_insert_header_files :
    insert_header_files ["// PHEADER\n", "X\n"]
        [⟨"A", "a0", []⟩, ⟨"B", "b0", []⟩] (fun t => t) =
      ["// PHEADER\n", "`include \"B_swreg_def.vh\"\n",
        "`include \"A_swreg_def.vh\"\n", "X\n"] ∧
    insert_header_files ["// PHEADER\n", "X\n"]
        [⟨"A", "a0", []⟩, ⟨"B", "b0", []⟩] (fun t => t) ≠
      ["// PHEADER\n", "`include \"A_swreg_def.vh\"\n",
        "`include \"B_swreg_def.vh\"\n", "X\n"] := by
  refine ⟨?_, ?_⟩ <;> decide

/-- C7 (amended): `insert_header_files` inserts exactly one include line per
distinct peripheral type in use, and the block of include lines sits
immediately after the header-marker line — but ordered by first occurrence
REVERSED, since each insertion at the fixed pre-computed index displaces the
previous insertions downward. -/
theorem c7_insert_header_files_reverse_order (contents : List String)
    (periphs : List Periph) (topName : String → String) (i : Nat)
    (hidx : findMarker "PHEADER" contents = some i) :
    insert_header_files contents periphs topName =
      contents.take (i + 1) ++
        (((firstSeenTypes periphs []).reverse.map
            (fun t => includeLine (topName t))) ++
          contents.drop (i + 1)) ∧
    (firstSeenTypes periphs []).Nodup ∧
    (∀ t, t ∈ firstSeenTypes periphs [] ↔ t ∈ periphs.map Periph.ptype) := by
  have hlen : i < contents.length := findMarker_lt_length "PHEADER" contents i hidx
  have hfi : find_idx contents "PHEADER" = i + 1 := by
    simp [find_idx, hidx]
  obtain ⟨_, h2, h3⟩ := firstSeenTypes_spec periphs []
  refine ⟨?_, h2, fun t => by simpa using h3 t⟩
  unfold insert_header_files
  rw [hfi]
  have hpre : (contents.take (i + 1)).length = i + 1 := by
    rw [List.length_take]
    omega
  have key := insertHeadersLoop_spec topName (contents.take (i + 1))
    (contents.drop (i + 1)) periphs [] []
  rw [hpre, List.nil_append, List.append_nil, List.take_append_drop] at key
  exact key

/-- C7 witness: the amended theorem applied to the two-type scenario. -/
theorem c7_insert_header_files_reverse_order_witness :
    findMarker "PHEADER" ["// PHEADER\n", "X\n"] = some 0 ∧
    (insert_header_files ["// PHEADER\n", "X\n"]
        [⟨"A", "a0", []⟩, ⟨"B", "b0", []⟩] (fun t => t) =
      (["// PHEADER\n", "X\n"].take 1) ++
        (((firstSeenTypes [⟨"A", "a0", []⟩, ⟨"B", "b0", []⟩] []).reverse.map
            (fun t => includeLine ((fun t => t) t))) ++
          (["// PHEADER\n", "X\n"].drop 1)) ∧
    (firstSeenTypes [(⟨"A", "a0", []⟩ : Periph), ⟨"B", "b0", []⟩] []).Nodup ∧
    (∀ t, t ∈ firstSeenTypes [(⟨"A", "a0", []⟩ : Periph), ⟨"B", "b0", []⟩] [] ↔
      t ∈ [(⟨"A", "a0", []⟩ : Periph), ⟨"B", "b0", []⟩].map Periph.ptype)) :=
  ⟨by decide,
    c7_insert_header_files_reverse_order ["// PHEADER\n", "X\n"]
      [⟨"A", "a0", []⟩, ⟨"B", "b0", []⟩] (fun t => t) 0 (by decide)⟩

/-! ### Claim C1 -/
/-- C1: when the requested purpose is already in the descriptor type's
setup-purpose history, or `"hardware"` is, `__setup` returns immediately:
the state is unchanged (no purpose recorded, no attribute initialization)
and the trace is empty (no files written). -/
theorem c1_setup_memo_guard (P : Prog) (fuel : Nat) (t : TypeId) (p : Purpose)
    (is_top_module : Bool) (s : St)
    (h : p ∈ (getSt s t).setupPurpose ∨ "hardware" ∈ (getSt s t).setupPurpose) :
    iob_setup P (fuel + 1) t p is_top_module s = Outcome.ok s [] := by
  simp only [iob_setup, setupRun]
  rw [if_pos h]

/-- C1 witness: a state where type `a` is already set up for `"hardware"`;
a new request for `"simulation"` is a no-op. -/
theorem c1_setup_memo_guard_witness :
    ("simulation" ∈ (getSt [("a", ClassState.mk ["hardware"] true true [] [])] "a").setupPurpose ∨
      "hardware" ∈ (getSt [("a", ClassState.mk ["hardware"] true true [] [])] "a").setupPurpose) ∧
    iob_setup progAB 10 "a" "simulation" false
        [("a", ClassState.mk ["hardware"] true true [] [])] =
      Outcome.ok [("a", ClassState.mk ["hardware"] true true [] [])] [] :=
  ⟨by decide,
    c1_setup_memo_guard progAB 9 "a" "simulation" false
      [("a", ClassState.mk ["hardware"] true true [] [])] (by decide)⟩

/-! ### Claims C2 and C10 -/
/-- C2: option resolution of `_setup_submodules` — an entry whose requested
purpose is the default `"hardware"` (no `purpose` key, or not a tuple at
all) is processed with the current class's latest setup purpose instead;
and an entry that explicitly pins a non-`"hardware"` purpose is processed
with exactly that purpose when the class is the top module, and skipped
entirely when it is not. -/
theorem c2_submodule_purpose_resolution (isTop : Bool) (latest : Purpose)
    (e : SubEntryState) (q : Purpose) :
    ((if e.isTuple then e.purposeKey else none) = none →
      resolvedPurpose (resolveEntry isTop (some latest) e) = some (some latest)) ∧
    (e.isTuple = true → e.purposeKey = some q → q ≠ "hardware" →
      resolvedPurpose (resolveEntry true (some latest) e) = some (some q) ∧
      resolvedPurpose (resolveEntry false (some latest) e) = some none) := by
  constructor
  · intro h
    simp only [resolveEntry, h, Option.getD_none]
    simp [resolvedPurpose]
  · intro htup hkey hq
    constructor
    · simp only [resolveEntry, htup, if_pos rfl, hkey, Option.getD_some]
      simp [resolvedPurpose, hq]
    · simp only [resolveEntry, htup, if_pos rfl, hkey, Option.getD_some]
      simp [resolvedPurpose, hq]

/-- C2 witness: the resolution applied to a defaulted entry and to an
explicitly pinned `"simulation"` entry, with latest purpose `"fpga"`. -/
theorem c2_submodule_purpose_resolution_witness :
    ((if (SubEntryState.mk (SubKind.module "sub") true none).isTuple
        then (SubEntryState.mk (SubKind.module "sub") true none).purposeKey
        else none) = none →
      resolvedPurpose (resolveEntry true (some "fpga")
          ⟨SubKind.module "sub", true, none⟩) = some (some "fpga")) ∧
    ((SubEntryState.mk (SubKind.module "sub2") true (some "simulation")).isTuple = true →
      (SubEntryState.mk (SubKind.module "sub2") true (some "simulation")).purposeKey =
        some "simulation" →
      "simulation" ≠ "hardware" →
      resolvedPurpose (resolveEntry true (some "fpga")
          ⟨SubKind.module "sub2", true, some "simulation"⟩) = some (some "simulation") ∧
      resolvedPurpose (resolveEntry false (some "fpga")
          ⟨SubKind.module "sub2", true, some "simulation"⟩) = some none) := by
  constructor
  · exact fun h =>
      (c2_submodule_purpose_resolution true "fpga"
        ⟨SubKind.module "sub", true, none⟩ "simulation").1 h
  · exact fun h1 h2 h3 =>
      (c2_submodule_purpose_resolution true "fpga"
        ⟨SubKind.module "sub2", true, some "simulation"⟩ "simulation").2 h1 h2 h3

/-- C10: a tuple entry whose setup-options dict lacks the `purpose` key is
mutated in place — after resolution the dict holds the purpose resolved
during this run (the current class's latest setup purpose); consequently a
later run treats that same dict as explicitly pinned: when the stored
purpose is not `"hardware"` a later top-module run processes the entry with
the stored purpose (not the later run's own purpose), and a later
non-top-module run skips the entry entirely. -/
theorem c10_submodule_options_mutated_in_place (isTop : Bool)
    (latest latest' : Purpose) (e : SubEntryState)
    (htuple : e.isTuple = true) (hkey : e.purposeKey = none) :
    resolveEntry isTop (some latest) e =
      Except.ok (some latest, { e with purposeKey := some latest }) ∧
    (latest ≠ "hardware" →
      resolveEntry true (some latest') { e with purposeKey := some latest } =
        Except.ok (some latest, { e with purposeKey := some latest }) ∧
      resolveEntry false (some latest') { e with purposeKey := some latest } =
        Except.ok (none, { e with purposeKey := some latest })) := by
  constructor
  · simp [resolveEntry, htuple, hkey]
  · intro hlat
    constructor
    · simp [resolveEntry, htuple, hlat]
    · simp [resolveEntry, htuple, hlat]

/-- C10 witness: a defaulted tuple entry resolved during a `"simulation"`
run, then reprocessed during a later `"fpga"` run. -/
theorem c10_submodule_options_mutated_in_place_witness :
    (SubEntryState.mk (SubKind.module "sub") true none).isTuple = true ∧
    (SubEntryState.mk (SubKind.module "sub") true none).purposeKey = none ∧
    (resolveEntry false (some "simulation") ⟨SubKind.module "sub", true, none⟩ =
      Except.ok (some "simulation", ⟨SubKind.module "sub", true, some "simulation"⟩) ∧
    ("simulation" ≠ "hardware" →
      resolveEntry true (some "fpga") ⟨SubKind.module "sub", true, some "simulation"⟩ =
        Except.ok (some "simulation", ⟨SubKind.module "sub", true, some "simulation"⟩) ∧
      resolveEntry false (some "fpga") ⟨SubKind.module "sub", true, some "simulation"⟩ =
        Except.ok (none, ⟨SubKind.module "sub", true, some "simulation"⟩))) :=
  ⟨rfl, rfl,
    c10_submodule_options_mutated_in_place false "simulation" "fpga"
      ⟨SubKind.module "sub", true, none⟩ rfl rfl⟩

/-! ### Claim C4 -/
/-- C4 counterexample: for the descriptor `top1` declaring its own `VERSION`
register in the `general` group, the first setup does fail with the error
naming the descriptor and the register — but only after files have been
written into the build directory: the trace already contains the
build-directory creation (which writes the copied Makefile) and the source
copying steps before the failure.  This refutes "this failure occurs before
any file has been written into the build directory". -/
theorem c4_counterexample_version_error_after_writes :
    outMsg (setup_as_top_module c4prog 10 "top1") =
      some "top1: Register 'VERSION' is reserved. Please remove it." ∧
    Event.createBuildDir "top1" ∈ outTrace (setup_as_top_module c4prog 10 "top1") ∧
    Event.copySrcs "top1" ∈ outTrace (setup_as_top_module c4prog 10 "top1") := by
  refine ⟨?_, ?_, ?_⟩ <;> decide

theorem getSt_setSt_self (t : TypeId) (cs : ClassState) (s : St) :
    getSt (setSt t cs s) t = cs := by
  induction s with
  | nil => simp [setSt, getSt]
  | cons uc rest ih =>
    obtain ⟨u, c⟩ := uc
    by_cases h : u = t
    · simp [setSt, getSt, h]
    · simp [setSt, getSt, h, ih]

theorem getSt_setSt_ne (t u : TypeId) (cs : ClassState) (s : St) (h : u ≠ t) :
    getSt (setSt t cs s) u = getSt s u := by
  have h' : ¬ (t = u) := fun hw => h hw.symm
  induction s with
  | nil => simp [setSt, getSt, h']
  | cons vc rest ih =>
    obtain ⟨v, c⟩ := vc
    by_cases hv : v = t
    · subst hv
      simp [setSt, getSt, h']
    · simp only [setSt, if_neg hv, getSt]
      by_cases hvu : v = u
      · simp [hvu]
      · simp [hvu, ih]

/-- C4 (amended): for every dependency-free descriptor whose author declared
a register named `VERSION` in the `general` register group, the first setup
fails with the error message naming the descriptor and the reserved
register — but the failure happens during artifact generation, after files
have already been written into the build directory (for a top module the
build-directory creation, including the copied Makefile, and the source
copying precede it; see `c4_counterexample_version_error_after_writes`). -/
theorem c4_version_register_reserved_error (t : TypeId) (regs : List RegGroup)
    (g : RegGroup) (p : Purpose) (top : Bool) (fuel : Nat)
    (hctls : t ≠ "iob_ctls")
    (hfind : regs.find? (fun g => g.name = "general") = some g)
    (hver : g.regs.any (fun r => r.name = "VERSION") = true)
    (hp : knownPurpose p = true) :
    outMsg (iob_setup (oneModProg t regs) (fuel + 3) t p top []) =
      some (t ++ ": Register 'VERSION' is reserved. Please remove it.") ∧
    (top = true →
      Event.createBuildDir t ∈
        outTrace (iob_setup (oneModProg t regs) (fuel + 3) t p top [])) := by
  have hctls2 : ¬ ("iob_ctls" = t) := fun h => hctls h.symm
  have hgmem : g ∈ regs := List.mem_of_find?_eq_some hfind
  have hgname : g.name = "general" := by
    have := List.find?_some hfind
    simpa using this
  have hempty : regs.isEmpty = false := by
    cases regs with
    | nil => simp at hgmem
    | cons a l => rfl
  have hany : regs.any (fun g => g.name = "general") = true :=
    List.any_eq_true.mpr ⟨g, hgmem, by simpa using hgname⟩
  constructor
  · simp only [iob_setup, setupRun, oneModProg, getSt, setSt, init_attributes,
      setupEnterStage, flowsCopyStage, autoAddStage, topFinishStage,
      Outcome.andThen, genInterfaceStage, generateFilesStage, build_regs_table,
      outMsg, outTrace, hctls, hctls2, hempty, hany, hfind, hver, hp,
      List.not_mem_nil, or_self, if_false, if_true, ite_false, ite_true,
      List.isEmpty_nil, List.length_nil, List.length_cons, List.get?,
      List.getLast?, Nat.zero_lt_succ, eq_self_iff_true, ne_eq,
      not_false_eq_true, List.isEmpty_cons]
    simp [hctls, hctls2, hempty, hany, hfind, hver, hp, getSt, setSt,
      setupEnterStage, flowsCopyStage, autoAddStage, topFinishStage,
      init_attributes, build_regs_table, outMsg, Outcome.andThen,
      genInterfaceStage, generateFilesStage, setupRun]
  · intro htop
    subst htop
    simp only [iob_setup, setupRun, oneModProg, getSt, setSt, init_attributes,
      setupEnterStage, flowsCopyStage, autoAddStage, topFinishStage,
      Outcome.andThen, genInterfaceStage, generateFilesStage, build_regs_table,
      outMsg, outTrace, hctls, hctls2, hempty, hany, hfind, hver, hp,
      List.not_mem_nil, or_self, if_false, if_true, ite_false, ite_true,
      List.isEmpty_nil, List.length_nil, List.length_cons, List.get?,
      List.getLast?, Nat.zero_lt_succ, eq_self_iff_true, ne_eq,
      not_false_eq_true, List.isEmpty_cons]
    simp [hctls, hctls2, hempty, hany, hfind, hver, hp, getSt, setSt,
      setupEnterStage, flowsCopyStage, autoAddStage, topFinishStage,
      init_attributes, build_regs_table, outMsg, outTrace, Outcome.andThen,
      genInterfaceStage, generateFilesStage, setupRun, List.mem_append,
      List.mem_cons]

/-- C4 witness: the amended theorem applied to the concrete reserved-register
scenario. -/
theorem c4_version_register_reserved_error_witness :
    ("top1" : TypeId) ≠ "iob_ctls" ∧
    ([RegGroup.mk "general" "General Registers." [⟨"VERSION"⟩]].find?
        (fun g => g.name = "general") =
      some (RegGroup.mk "general" "General Registers." [⟨"VERSION"⟩])) ∧
    ((RegGroup.mk "general" "General Registers." [⟨"VERSION"⟩]).regs.any
        (fun r => r.name = "VERSION") = true) ∧
    knownPurpose "hardware" = true ∧
    (outMsg (iob_setup
        (oneModProg "top1" [RegGroup.mk "general" "General Registers." [⟨"VERSION"⟩]])
        3 "top1" "hardware" true []) =
      some ("top1" ++ ": Register 'VERSION' is reserved. Please remove it.") ∧
    (true = true →
      Event.createBuildDir "top1" ∈
        outTrace (iob_setup
          (oneModProg "top1" [RegGroup.mk "general" "General Registers." [⟨"VERSION"⟩]])
          3 "top1" "hardware" true []))) :=
  ⟨by decide, by decide, by decide, by decide,
    c4_version_register_reserved_error "top1"
      [RegGroup.mk "general" "General Registers." [⟨"VERSION"⟩]]
      (RegGroup.mk "general" "General Registers." [⟨"VERSION"⟩])
      "hardware" true 0 (by decide) (by decide) (by decide) (by decide)⟩

/-! ### Trace specification of the setup engine (towards claim C9) -/
theorem stMono_refl (s : St) : stMono s s := fun _ _ h => h

theorem stMono_trans {s1 s2 s3 : St} (h12 : stMono s1 s2) (h23 : stMono s2 s3) :
    stMono s1 s3 := fun u q h => h23 u q (h12 u q h)

theorem traceOk_refl (s : St) : TraceOk s s [] :=
  ⟨stMono_refl s, by simp, by simp⟩

theorem traceOk_no_bodyEnter {s s' : St} {tr : List Event} (hm : stMono s s')
    (hnb : ∀ u q, Event.bodyEnter u q ∉ tr) : TraceOk s s' tr := by
  refine ⟨hm, fun u q h => absurd h (hnb u q), fun u q => ?_⟩
  have := List.count_eq_zero.mpr (hnb u q)
  omega

theorem traceOk_startEq {s s1 s' : St} {tr : List Event}
    (he : ∀ u, (getSt s u).setupPurpose = (getSt s1 u).setupPurpose)
    (h : TraceOk s1 s' tr) : TraceOk s s' tr := by
  obtain ⟨hm, hb, hc⟩ := h
  refine ⟨fun u q hq => hm u q ((he u) ▸ hq), fun u q hbe => ?_, hc⟩
  obtain ⟨hn, hy⟩ := hb u q hbe
  exact ⟨(he u) ▸ hn, hy⟩

theorem outSpec_startEq {s s1 : St} {o : Outcome}
    (he : ∀ u, (getSt s u).setupPurpose = (getSt s1 u).setupPurpose)
    (h : OutSpec s1 o) : OutSpec s o := by
  cases o with
  | ok s' tr => exact traceOk_startEq he h
  | err s' tr m => exact traceOk_startEq he h
  | outOfFuel => trivial

theorem traceOk_append {s s1 s2 : St} {tr1 tr2 : List Event}
    (h1 : TraceOk s s1 tr1) (h2 : TraceOk s1 s2 tr2) :
    TraceOk s s2 (tr1 ++ tr2) := by
  obtain ⟨m1, b1, c1⟩ := h1
  obtain ⟨m2, b2, c2⟩ := h2
  refine ⟨stMono_trans m1 m2, ?_, ?_⟩
  · intro u q hb
    rcases List.mem_append.mp hb with hb | hb
    · obtain ⟨hn, hy⟩ := b1 u q hb
      exact ⟨hn, m2 u q hy⟩
    · obtain ⟨hn, hy⟩ := b2 u q hb
      exact ⟨fun hq => hn (m1 u q hq), hy⟩
  · intro u q
    rw [List.count_append]
    by_cases hmem : Event.bodyEnter u q ∈ tr1
    · have hq1 : q ∈ (getSt s1 u).setupPurpose := (b1 u q hmem).2
      have hnot2 : Event.bodyEnter u q ∉ tr2 := fun hmem2 => (b2 u q hmem2).1 hq1
      have hz : tr2.count (Event.bodyEnter u q) = 0 := List.count_eq_zero.mpr hnot2
      have := c1 u q
      omega
    · have hz : tr1.count (Event.bodyEnter u q) = 0 := List.count_eq_zero.mpr hmem
      have := c2 u q
      omega

theorem andThen_spec {s : St} {o : Outcome} {f : St → Outcome}
    (h1 : OutSpec s o) (h2 : ∀ s1 tr1, o = .ok s1 tr1 → OutSpec s1 (f s1)) :
    OutSpec s (o.andThen f) := by
  cases o with
  | ok s1 tr1 =>
    have hf := h2 s1 tr1 rfl
    cases hfo : f s1 with
    | ok s2 tr2 =>
      rw [hfo] at hf
      show OutSpec s (Outcome.andThen (.ok s1 tr1) f)
      simp only [Outcome.andThen, hfo]
      exact traceOk_append h1 hf
    | err s2 tr2 m =>
      rw [hfo] at hf
      show OutSpec s (Outcome.andThen (.ok s1 tr1) f)
      simp only [Outcome.andThen, hfo]
      exact traceOk_append h1 hf
    | outOfFuel =>
      show OutSpec s (Outcome.andThen (.ok s1 tr1) f)
      simp only [Outcome.andThen, hfo]
      trivial
  | err s1 tr1 m => exact h1
  | outOfFuel => trivial

theorem init_attributes_setupPurpose (P : Prog) (t : TypeId) (cs : ClassState) :
    (init_attributes P t cs).1.setupPurpose = cs.setupPurpose := by
  unfold init_attributes
  split <;> rfl

theorem init_attributes_no_bodyEnter (P : Prog) (t : TypeId) (cs : ClassState)
    (u : TypeId) (q : Purpose) :
    Event.bodyEnter u q ∉ (init_attributes P t cs).2 := by
  unfold init_attributes
  split <;> simp

theorem setupEnterStage_eq (P : Prog) (t : TypeId) (p : Purpose) (top : Bool)
    (s : St) :
    ∃ (cs' : ClassState) (tr' : List Event),
      setupEnterStage P t p top s =
        Outcome.ok (setSt t cs' s) (Event.bodyEnter t p :: tr') ∧
      cs'.setupPurpose = (getSt s t).setupPurpose ++ [p] ∧
      (cs'.subs = (getSt s t).subs ∨ cs'.subs = P.subsOf t) ∧
      (∀ u q, Event.bodyEnter u q ∉ tr') := by
  unfold setupEnterStage
  by_cases hft : (getSt s t).setupPurpose.isEmpty = true
  · simp only [hft, if_true, ite_true]
    refine ⟨_, _, rfl, ?_, ?_, ?_⟩
    · rw [init_attributes_setupPurpose]
    · unfold init_attributes
      split
      · exact Or.inl rfl
      · exact Or.inr rfl
    · intro u q hmem
      rcases List.mem_append.mp hmem with hmem | hmem
      · exact init_attributes_no_bodyEnter P t _ u q hmem
      · by_cases hc : top ∧ (getSt s t).setupPurpose.isEmpty = true
        · simp [hc] at hmem
        · simp [hc] at hmem
  · refine ⟨{ getSt s t with
        setupPurpose := (getSt s t).setupPurpose ++ [p] }, [], ?_, rfl,
      Or.inl rfl, by simp⟩
    have hc : ¬ (top ∧ (getSt s t).setupPurpose.isEmpty = true) :=
      fun hx => hft hx.2
    simp [hft, hc]

theorem setupEnterStage_spec (P : Prog) (t : TypeId) (p : Purpose) (top : Bool)
    (s : St) (hg : p ∉ (getSt s t).setupPurpose) :
    OutSpec s (setupEnterStage P t p top s) := by
  obtain ⟨cs', tr', heq, hsp, _, hnb⟩ := setupEnterStage_eq P t p top s
  rw [heq]
  refine ⟨?_, ?_, ?_⟩
  · intro u q hq
    by_cases hu : u = t
    · subst hu
      rw [getSt_setSt_self, hsp]
      exact List.mem_append_left _ hq
    · rw [getSt_setSt_ne t u _ _ hu]
      exact hq
  · intro u q hb
    rcases List.mem_cons.mp hb with hb | hb
    · injection hb with h1 h2
      subst h1
      subst h2
      refine ⟨hg, ?_⟩
      rw [getSt_setSt_self, hsp]
      exact List.mem_append_right _ (List.mem_singleton.mpr rfl)
    · exact absurd hb (hnb u q)
  · intro u q
    rw [List.count_cons]
    have hz : tr'.count (Event.bodyEnter u q) = 0 :=
      List.count_eq_zero.mpr (hnb u q)
    rw [hz]
    split <;> omega

theorem genInterfaceStage_spec (t : TypeId) (n : String) (p : Purpose) (s : St) :
    OutSpec s (genInterfaceStage t n p s) := by
  unfold genInterfaceStage
  by_cases h : knownPurpose p = true
  · simp only [h, if_true, ite_true]
    exact traceOk_no_bodyEnter (stMono_refl s) (by simp)
  · simp only [h, if_false, ite_false]
    exact traceOk_refl s

theorem flowsCopyStage_spec (t : TypeId) (s : St) :
    OutSpec s (flowsCopyStage t s) :=
  traceOk_no_bodyEnter (stMono_refl s) (by simp [flowsCopyStage])

theorem build_regs_table_fields (t : TypeId) (cs cs' : ClassState)
    (h : build_regs_table t cs = Except.ok cs') :
    cs'.setupPurpose = cs.setupPurpose ∧ cs'.subs = cs.subs ∧
    cs'.isTopModule = cs.isTopModule := by
  simp only [build_regs_table] at h
  split at h
  · injection h with h
    subst h
    exact ⟨rfl, rfl, rfl⟩
  · split at h
    · split at h
      · injection h with h
        subst h
        exact ⟨rfl, rfl, rfl⟩
      · split at h
        · cases h
        · injection h with h
          subst h
          exact ⟨rfl, rfl, rfl⟩
    · injection h with h
      subst h
      exact ⟨rfl, rfl, rfl⟩

theorem generateFilesStage_spec (t : TypeId) (s : St) :
    OutSpec s (generateFilesStage t s) := by
  unfold generateFilesStage
  cases hb : build_regs_table t (getSt s t) with
  | error m => exact traceOk_refl s
  | ok cs' =>
    refine traceOk_no_bodyEnter ?_ (by simp)
    intro u q hq
    by_cases hu : u = t
    · subst hu
      rw [getSt_setSt_self, (build_regs_table_fields u _ _ hb).1]
      exact hq
    · rw [getSt_setSt_ne t u _ _ hu]
      exact hq

theorem topFinishStage_spec (t : TypeId) (s : St) :
    OutSpec s (topFinishStage t s) := by
  unfold topFinishStage
  by_cases h : (getSt s t).isTopModule = true
  · simp only [h, if_true, ite_true]
    exact traceOk_no_bodyEnter (stMono_refl s) (by simp)
  · simp only [h, if_false, ite_false]
    exact traceOk_refl s

theorem autoAddStage_spec (t : TypeId) (recur : Purpose → St → Outcome) (s : St)
    (hrec : ∀ latest s', OutSpec s' (recur latest s')) :
    OutSpec s (autoAddStage t recur s) := by
  simp only [autoAddStage]
  by_cases hre : (getSt s t).regs.isEmpty = true
  · rw [if_pos hre]
    exact traceOk_refl s
  · rw [if_neg hre]
    cases hl : (getSt s t).setupPurpose.getLast? with
    | none => exact traceOk_refl s
    | some latest =>
      refine andThen_spec (andThen_spec ?_ ?_) ?_
      · by_cases hc : t ≠ "iob_ctls"
        · rw [if_pos hc]
          exact hrec latest s
        · rw [if_neg hc]
          exact traceOk_refl s
      · intro s1 tr1 _
        exact genInterfaceStage_spec t "iob_s_port" latest s1
      · intro s1 tr1 _
        exact genInterfaceStage_spec t "iob_s_s_portmap" latest s1

theorem purposes_setSt_subst (t : TypeId) (cs : ClassState) (s : St)
    (hcs : cs.setupPurpose = (getSt s t).setupPurpose) :
    ∀ u, (getSt s u).setupPurpose = (getSt (setSt t cs s) u).setupPurpose := by
  intro u
  by_cases hu : u = t
  · subst hu
    rw [getSt_setSt_self, hcs]
  · rw [getSt_setSt_ne t u _ _ hu]

theorem setupRun_outSpec (P : Prog) :
    ∀ (fuel : Nat) (c : SetupCall) (s : St), OutSpec s (setupRun P fuel c s) := by
  intro fuel
  induction fuel with
  | zero => intro c s; exact trivial
  | succ fuel ih =>
    intro c s
    cases c with
    | setup t p top =>
      show OutSpec s (setupRun P (fuel + 1) (SetupCall.setup t p top) s)
      rw [setupRun]
      by_cases hg : p ∈ (getSt s t).setupPurpose ∨ "hardware" ∈ (getSt s t).setupPurpose
      · rw [if_pos hg]
        exact traceOk_refl s
      · rw [if_neg hg]
        push_neg at hg
        refine andThen_spec (andThen_spec (andThen_spec (andThen_spec
          (andThen_spec ?_ ?_) ?_) ?_) ?_) ?_
        · exact setupEnterStage_spec P t p top s hg.1
        · intro s1 tr1 _
          exact ih (SetupCall.subs t 0 (getSt s1 t).subs.length) s1
        · intro s1 tr1 _
          exact flowsCopyStage_spec t s1
        · intro s1 tr1 _
          exact autoAddStage_spec t _ s1
            (fun latest s' => ih (SetupCall.setup "iob_ctls" latest false) s')
        · intro s1 tr1 _
          exact generateFilesStage_spec t s1
        · intro s1 tr1 _
          exact topFinishStage_spec t s1
    | subs t i rem =>
      cases rem with
      | zero =>
        show OutSpec s (setupRun P (fuel + 1) (SetupCall.subs t i 0) s)
        rw [setupRun]
        exact traceOk_refl s
      | succ rem =>
        show OutSpec s (setupRun P (fuel + 1) (SetupCall.subs t i (rem + 1)) s)
        rw [setupRun]
        split
        · exact traceOk_refl s
        · split
          · exact traceOk_refl s
          · rename_i x1 e hgi x2 act e1 hre
            split
            · exact outSpec_startEq
                (purposes_setSt_subst t
                  (ClassState.mk (getSt s t).setupPurpose
                    (getSt s t).initializedAttributes (getSt s t).isTopModule
                    ((getSt s t).subs.set i e1) (getSt s t).regs) s rfl)
                (ih (SetupCall.subs t (i + 1) rem) _)
            · rename_i lopt q
              split
              · rename_i ifname hk
                refine outSpec_startEq
                  (purposes_setSt_subst t
                    (ClassState.mk (getSt s t).setupPurpose
                      (getSt s t).initializedAttributes (getSt s t).isTopModule
                      ((getSt s t).subs.set i e1) (getSt s t).regs) s rfl) ?_
                refine andThen_spec (genInterfaceStage_spec _ _ _ _) ?_
                intro s2 tr2 _
                exact ih (SetupCall.subs t (i + 1) rem) s2
              · rename_i u hk
                refine outSpec_startEq
                  (purposes_setSt_subst t
                    (ClassState.mk (getSt s t).setupPurpose
                      (getSt s t).initializedAttributes (getSt s t).isTopModule
                      ((getSt s t).subs.set i e1) (getSt s t).regs) s rfl) ?_
                refine andThen_spec (ih (SetupCall.setup u q false) _) ?_
                intro s2 tr2 _
                exact ih (SetupCall.subs t (i + 1) rem) s2
              · refine traceOk_no_bodyEnter ?_ (by simp)
                intro u qq hqq
                rw [← purposes_setSt_subst t
                  (ClassState.mk (getSt s t).setupPurpose
                    (getSt s t).initializedAttributes (getSt s t).isTopModule
                    ((getSt s t).subs.set i e1) (getSt s t).regs) s rfl u]
                exact hqq

theorem getLast?_mem_of_eq {l : List Purpose} {a : Purpose}
    (h : l.getLast? = some a) : a ∈ l := by
  induction l with
  | nil => simp [List.getLast?] at h
  | cons x xs ih =>
    cases xs with
    | nil =>
      simp [List.getLast?] at h
      subst h
      exact List.mem_singleton.mpr rfl
    | cons y ys =>
      rw [List.getLast?_cons_cons] at h
      exact List.mem_cons_of_mem x (ih h)

theorem map_sum_lt {α : Type} (l : List α) (f g : α → Nat)
    (h : ∀ i ∈ l, f i ≤ g i) :
    ∀ a ∈ l, f a < g a → (l.map f).sum < (l.map g).sum := by
  induction l with
  | nil => intro a ha; simp at ha
  | cons x xs ih =>
    intro a ha hlt
    have hx : f x ≤ g x := h x (List.mem_cons_self x xs)
    have hxs : (xs.map f).sum ≤ (xs.map g).sum :=
      List.sum_le_sum (fun i hi => h i (List.mem_cons_of_mem x hi))
    rcases List.mem_cons.mp ha with rfl | ha
    · simp only [List.map_cons, List.sum_cons]
      omega
    · have := ih (fun i hi => h i (List.mem_cons_of_mem x hi)) a ha hlt
      simp only [List.map_cons, List.sum_cons]
      omega

theorem missingAt_mono {U r1 r2 : List Purpose} (h : ∀ q, q ∈ r1 → q ∈ r2) :
    missingAt U r2 ≤ missingAt U r1 := by
  unfold missingAt
  refine List.Sublist.length_le (List.monotone_filter_right U ?_)
  intro a ha
  simp only [decide_eq_true_eq] at *
  exact fun hmem => ha (h a hmem)

theorem missingAt_strict {U r : List Purpose} {p : Purpose} (hp : p ∈ U)
    (hnp : p ∉ r) : missingAt U (r ++ [p]) < missingAt U r := by
  induction U with
  | nil => simp at hp
  | cons a U ih =>
    by_cases hap : a = p
    · subst hap
      have h1 : (decide (a ∉ r)) = true := by simpa using hnp
      have h2 : ¬ (decide (a ∉ r ++ [a])) = true := by simp
      unfold missingAt
      rw [List.filter_cons_of_neg (p := fun q => decide (q ∉ r ++ [a])) h2,
        List.filter_cons_of_pos (p := fun q => decide (q ∉ r)) h1]
      have hmono : missingAt U (r ++ [a]) ≤ missingAt U r :=
        missingAt_mono (fun q hq => List.mem_append_left _ hq)
      unfold missingAt at hmono
      simp only [List.length_cons]
      omega
    · rcases List.mem_cons.mp hp with rfl | hpU
      · exact absurd rfl hap
      · have hsame : (decide (a ∉ r ++ [p])) = (decide (a ∉ r)) := by
          by_cases har : a ∈ r
          · simp [har]
          · simp [har, List.mem_append, hap]
        have := ih hpU
        unfold missingAt at this ⊢
        cases hd : decide (a ∉ r) with
        | true =>
          have hd2 : (decide (a ∉ r ++ [p])) = true := by rw [hsame, hd]
          rw [List.filter_cons_of_pos (p := fun q => decide (q ∉ r ++ [p])) hd2,
            List.filter_cons_of_pos (p := fun q => decide (q ∉ r)) hd]
          simp only [List.length_cons]
          omega
        | false =>
          have hd2 : ¬ (decide (a ∉ r ++ [p])) = true := by rw [hsame, hd]; simp
          have hd' : ¬ (decide (a ∉ r)) = true := by rw [hd]; simp
          rw [List.filter_cons_of_neg (p := fun q => decide (q ∉ r ++ [p])) hd2,
            List.filter_cons_of_neg (p := fun q => decide (q ∉ r)) hd']
          exact this

theorem missingCount_congr (P : Prog) (U : List Purpose) {s s' : St}
    (h : ∀ u, (getSt s u).setupPurpose = (getSt s' u).setupPurpose) :
    missingCount P U s' = missingCount P U s := by
  unfold missingCount
  congr 1
  exact List.map_congr_left (fun t _ => by rw [h t])

theorem missingCount_mono (P : Prog) (U : List Purpose) {s s' : St}
    (h : stMono s s') : missingCount P U s' ≤ missingCount P U s := by
  unfold missingCount
  exact List.sum_le_sum (fun t _ => missingAt_mono (fun q hq => h t q hq))

theorem missingCount_lt (P : Prog) (U : List Purpose) {s : St} {t : TypeId}
    {p : Purpose} {cs' : ClassState} (ht : t ∈ P.types) (hp : p ∈ U)
    (hnp : p ∉ (getSt s t).setupPurpose)
    (hcs : cs'.setupPurpose = (getSt s t).setupPurpose ++ [p]) :
    missingCount P U (setSt t cs' s) < missingCount P U s := by
  unfold missingCount
  apply map_sum_lt _ _ _ ?_ t ht
  · rw [getSt_setSt_self, hcs]
    exact missingAt_strict hp hnp
  · intro u _
    by_cases hu : u = t
    · subst hu
      rw [getSt_setSt_self, hcs]
      exact missingAt_mono (fun q hq => List.mem_append_left _ hq)
    · rw [getSt_setSt_ne t u _ _ hu]

theorem andThen_assoc (o : Outcome) (f g : St → Outcome) :
    (o.andThen f).andThen g = o.andThen (fun s => (f s).andThen g) := by
  cases o with
  | outOfFuel => rfl
  | err s tr m => rfl
  | ok s tr =>
    show Outcome.andThen (Outcome.andThen (Outcome.ok s tr) f) g = _
    simp only [Outcome.andThen]
    cases hfo : f s with
    | outOfFuel => rfl
    | err s1 tr1 m => rfl
    | ok s1 tr1 =>
      simp only [Outcome.andThen]
      cases g s1 <;> simp [List.append_assoc]

theorem total_ok_inv {P : Prog} {U : List Purpose} {L : Nat} {s : St}
    {tr : List Event} (hinv : InvSt P U L s) :
    TotalRun P U L s (Outcome.ok s tr) :=
  ⟨fun h => Outcome.noConfusion h,
   fun s' tr' he => by
     injection he with h1 h2
     subst h1
     exact ⟨hinv, stMono_refl s⟩⟩

theorem total_err {P : Prog} {U : List Purpose} {L : Nat} {s s1 : St}
    {tr : List Event} {m : String} : TotalRun P U L s (Outcome.err s1 tr m) :=
  ⟨fun h => Outcome.noConfusion h, fun _ _ he => Outcome.noConfusion he⟩

theorem total_mono {P : Prog} {U : List Purpose} {L : Nat} {s s1 : St}
    {o : Outcome} (hm : stMono s s1) (h : TotalRun P U L s1 o) :
    TotalRun P U L s o :=
  ⟨h.1, fun s' tr he =>
    ⟨(h.2 s' tr he).1, stMono_trans hm (h.2 s' tr he).2⟩⟩

theorem total_ok_andThen {P : Prog} {U : List Purpose} {L : Nat} {s s1 : St}
    {tr1 : List Event} {f : St → Outcome} (hm : stMono s s1)
    (h : TotalRun P U L s1 (f s1)) :
    TotalRun P U L s ((Outcome.ok s1 tr1).andThen f) := by
  show TotalRun P U L s (Outcome.andThen (Outcome.ok s1 tr1) f)
  simp only [Outcome.andThen]
  cases hfo : f s1 with
  | outOfFuel => exact absurd hfo h.1
  | err s2 tr2 m => exact total_err
  | ok s2 tr2 =>
    have h2 := h.2 s2 tr2 hfo
    refine ⟨fun hx => Outcome.noConfusion hx, fun s' tr' he => ?_⟩
    injection he with he1 he2
    subst he1
    exact ⟨h2.1, stMono_trans hm h2.2⟩

theorem total_andThen {P : Prog} {U : List Purpose} {L : Nat} {s : St}
    {o : Outcome} {f : St → Outcome}
    (ho : TotalRun P U L s o)
    (hf : ∀ s1 tr1, o = Outcome.ok s1 tr1 → TotalRun P U L s1 (f s1)) :
    TotalRun P U L s (o.andThen f) := by
  cases o with
  | outOfFuel => exact absurd rfl ho.1
  | err s1 tr1 m =>
    show TotalRun P U L s (Outcome.andThen (Outcome.err s1 tr1 m) f)
    simp only [Outcome.andThen]
    exact total_err
  | ok s1 tr1 =>
    exact total_ok_andThen (ho.2 s1 tr1 rfl).2 (hf s1 tr1 rfl)

theorem resolveEntry_closed (P : Prog) (U : List Purpose) (isTop : Bool)
    (latest? : Option Purpose) (e e' : SubEntryState) (act : Option Purpose)
    (hU : "hardware" ∈ U)
    (he : entryClosed P U e = true)
    (hl : ∀ q, latest? = some q → q ∈ U)
    (h : resolveEntry isTop latest? e = Except.ok (act, e')) :
    entryClosed P U e' = true ∧ ∀ q, act = some q → q ∈ U := by
  have hd : ((if e.isTuple then e.purposeKey else none).getD "hardware") ∈ U := by
    by_cases ht : e.isTuple = true
    · rw [if_pos ht]
      cases hpk : e.purposeKey with
      | none => simpa using hU
      | some q =>
        have h2 := (Bool.and_eq_true _ _).mp he |>.2
        rw [hpk] at h2
        simp only [Option.getD_some]
        simpa using h2
    · rw [if_neg ht]
      simpa using hU
  have hkind : ∀ v : Purpose, v ∈ U →
      entryClosed P U
        (if e.isTuple then { e with purposeKey := some v } else e) = true := by
    intro v hv
    by_cases ht : e.isTuple = true
    · rw [if_pos ht]
      have h1 := (Bool.and_eq_true _ _).mp he |>.1
      simp only [entryClosed, Bool.and_eq_true]
      exact ⟨h1, by simpa using hv⟩
    · rw [if_neg ht]
      exact he
  simp only [resolveEntry] at h
  by_cases hc1 : ¬ isTop = true ∧
      some ((if e.isTuple then e.purposeKey else none).getD "hardware") ≠
        some "hardware"
  · rw [if_pos hc1] at h
    injection h with h
    injection h with ha hb
    subst hb
    refine ⟨hkind _ hd, ?_⟩
    intro q hq
    rw [← ha] at hq
    cases hq
  · rw [if_neg hc1] at h
    by_cases hc2 : some ((if e.isTuple then e.purposeKey else none).getD
        "hardware") = some "hardware"
    · rw [if_pos hc2] at h
      cases hlc : latest? with
      | none => rw [hlc] at h; cases h
      | some latest =>
        rw [hlc] at h
        injection h with h
        injection h with ha hb
        subst hb
        have hlU : latest ∈ U := hl latest hlc
        refine ⟨hkind _ hlU, ?_⟩
        intro q hq
        rw [← ha] at hq
        injection hq with hq
        subst hq
        exact hlU
    · rw [if_neg hc2] at h
      injection h with h
      injection h with ha hb
      subst hb
      refine ⟨hkind _ hd, ?_⟩
      intro q hq
      rw [← ha] at hq
      injection hq with hq
      subst hq
      exact hd

theorem InvSt_nil (P : Prog) (U : List Purpose) (L : Nat) : InvSt P U L [] := by
  intro t
  refine ⟨?_, ?_, ?_⟩
  · intro q hq
    simp [getSt] at hq
  · intro e he
    simp [getSt] at he
  · simp [getSt]

theorem genInterfaceStage_total (P : Prog) (U : List Purpose) (L : Nat)
    (t : TypeId) (n : String) (p : Purpose) (s : St) (hinv : InvSt P U L s) :
    TotalRun P U L s (genInterfaceStage t n p s) := by
  unfold genInterfaceStage
  by_cases h : knownPurpose p = true
  · rw [if_pos h]
    exact total_ok_inv hinv
  · rw [if_neg h]
    exact total_err

theorem generateFilesStage_total (P : Prog) (U : List Purpose) (L : Nat)
    (t : TypeId) (s : St) (hinv : InvSt P U L s) :
    TotalRun P U L s (generateFilesStage t s) := by
  unfold generateFilesStage
  cases hb : build_regs_table t (getSt s t) with
  | error m => exact total_err
  | ok cs' =>
    obtain ⟨hsp, hsub, _⟩ := build_regs_table_fields t _ _ hb
    have hpur : ∀ u,
        (getSt s u).setupPurpose = (getSt (setSt t cs' s) u).setupPurpose :=
      purposes_setSt_subst t cs' s hsp
    refine ⟨fun h => Outcome.noConfusion h, fun s' tr he => ?_⟩
    injection he with he1 he2
    subst he1
    refine ⟨?_, fun u q hq => (hpur u) ▸ hq⟩
    intro u
    by_cases hu : u = t
    · subst hu
      rw [getSt_setSt_self]
      refine ⟨?_, ?_, ?_⟩
      · rw [hsp]
        exact (hinv u).1
      · rw [hsub]
        exact (hinv u).2.1
      · rw [hsub]
        exact (hinv u).2.2
    · rw [getSt_setSt_ne t u _ _ hu]
      exact hinv u

theorem topFinishStage_total (P : Prog) (U : List Purpose) (L : Nat)
    (t : TypeId) (s : St) (hinv : InvSt P U L s) :
    TotalRun P U L s (topFinishStage t s) := by
  unfold topFinishStage
  by_cases h : (getSt s t).isTopModule = true
  · rw [if_pos h]
    exact total_ok_inv hinv
  · rw [if_neg h]
    exact total_ok_inv hinv

theorem autoAddStage_total (P : Prog) (U : List Purpose) (L : Nat)
    (t : TypeId) (recur : Purpose → St → Outcome) (s : St)
    (hinv : InvSt P U L s)
    (hrec : ∀ latest, latest ∈ U → TotalRun P U L s (recur latest s)) :
    TotalRun P U L s (autoAddStage t recur s) := by
  simp only [autoAddStage]
  by_cases hre : (getSt s t).regs.isEmpty = true
  · rw [if_pos hre]
    exact total_ok_inv hinv
  · rw [if_neg hre]
    cases hl : (getSt s t).setupPurpose.getLast? with
    | none => exact total_err
    | some latest =>
      have hlat : latest ∈ U := (hinv t).1 latest (getLast?_mem_of_eq hl)
      show TotalRun P U L s
        (((if t ≠ "iob_ctls" then recur latest s else Outcome.ok s []).andThen
            fun s => genInterfaceStage t "iob_s_port" latest s).andThen
          fun s => genInterfaceStage t "iob_s_s_portmap" latest s)
      rw [andThen_assoc]
      have ho : TotalRun P U L s
          (if t ≠ "iob_ctls" then recur latest s else Outcome.ok s []) := by
        by_cases ht : t ≠ "iob_ctls"
        · rw [if_pos ht]
          exact hrec latest hlat
        · rw [if_neg ht]
          exact total_ok_inv hinv
      refine total_andThen ho ?_
      intro s2 tr2 heq
      have h2 := ho.2 s2 tr2 heq
      refine total_andThen
        (genInterfaceStage_total P U L t "iob_s_port" latest s2 h2.1) ?_
      intro s3 tr3 heq3
      have h3 := (genInterfaceStage_total P U L t "iob_s_port" latest s2
        h2.1).2 s3 tr3 heq3
      exact genInterfaceStage_total P U L t "iob_s_s_portmap" latest s3 h3.1

theorem setupRun_total (P : Prog) (U : List Purpose) (L : Nat)
    (hcp : ClosedProg P U L) :
    ∀ (fuel : Nat) (c : SetupCall) (s : St), InvSt P U L s →
      SetupPre P U L fuel c s → TotalRun P U L s (setupRun P fuel c s) := by
  intro fuel
  induction fuel with
  | zero =>
    intro c s _ hpre
    cases c with
    | setup t p top => exact absurd hpre.2.2 (by omega)
    | subs t i rem => exact absurd hpre.2 (by omega)
  | succ fuel ih =>
    intro c s hinv hpre
    cases c with
    | setup t p top =>
      obtain ⟨ht, hp, hfuel⟩ := hpre
      show TotalRun P U L s (setupRun P (fuel + 1) (SetupCall.setup t p top) s)
      rw [setupRun]
      by_cases hg : p ∈ (getSt s t).setupPurpose ∨
          "hardware" ∈ (getSt s t).setupPurpose
      · rw [if_pos hg]
        exact total_ok_inv hinv
      · rw [if_neg hg]
        push_neg at hg
        simp only [andThen_assoc]
        obtain ⟨cs3, tr', henter, hsp, hsubs, hnb⟩ := setupEnterStage_eq P t p top s
        rw [henter]
        have hmono1 : stMono s (setSt t cs3 s) := by
          intro u q hq
          by_cases hu : u = t
          · subst hu
            rw [getSt_setSt_self, hsp]
            exact List.mem_append_left _ hq
          · rw [getSt_setSt_ne t u _ _ hu]
            exact hq
        have hinv1 : InvSt P U L (setSt t cs3 s) := by
          intro u
          by_cases hu : u = t
          · subst hu
            rw [getSt_setSt_self]
            refine ⟨?_, ?_, ?_⟩
            · intro q hq
              rw [hsp] at hq
              rcases List.mem_append.mp hq with hq | hq
              · exact (hinv u).1 q hq
              · rw [List.mem_singleton] at hq
                subst hq
                exact hp
            · rcases hsubs with hs | hs
              · rw [hs]
                exact (hinv u).2.1
              · rw [hs]
                exact (hcp.2.2 u ht).1
            · rcases hsubs with hs | hs
              · rw [hs]
                exact (hinv u).2.2
              · rw [hs]
                exact (hcp.2.2 u ht).2
          · rw [getSt_setSt_ne t u _ _ hu]
            exact hinv u
        have hlt : missingCount P U (setSt t cs3 s) < missingCount P U s :=
          missingCount_lt P U ht hp hg.1 hsp
        have hfa : (L + 2) * missingCount P U s ≤ fuel := by omega
        have hstep : (L + 2) * (missingCount P U (setSt t cs3 s) + 1) ≤
            (L + 2) * missingCount P U s :=
          Nat.mul_le_mul_left _ hlt
        have hms : (L + 2) * (missingCount P U (setSt t cs3 s) + 1) =
            (L + 2) * missingCount P U (setSt t cs3 s) + (L + 2) :=
          Nat.mul_succ _ _
        refine total_ok_andThen hmono1 ?_
        have hlen1 : (getSt (setSt t cs3 s) t).subs.length ≤ L :=
          (hinv1 t).2.2
        have hsub1 : TotalRun P U L (setSt t cs3 s)
            (setupRun P fuel
              (SetupCall.subs t 0 (getSt (setSt t cs3 s) t).subs.length)
              (setSt t cs3 s)) := by
          refine ih _ _ hinv1 ⟨ht, ?_⟩
          omega
        refine total_andThen hsub1 ?_
        intro s2 tr2 heq2
        have h2 := hsub1.2 s2 tr2 heq2
        have hm2 : missingCount P U s2 ≤ missingCount P U (setSt t cs3 s) :=
          missingCount_mono P U h2.2
        have hm2l : (L + 2) * missingCount P U s2 ≤
            (L + 2) * missingCount P U (setSt t cs3 s) :=
          Nat.mul_le_mul_left _ hm2
        refine total_ok_andThen (stMono_refl s2) ?_
        have hauto : TotalRun P U L s2
            (autoAddStage t
              (fun latest s =>
                setupRun P fuel (SetupCall.setup "iob_ctls" latest false) s)
              s2) := by
          refine autoAddStage_total P U L t _ s2 h2.1 ?_
          intro latest hlat
          refine ih _ _ h2.1 ⟨hcp.2.1, hlat, ?_⟩
          omega
        refine total_andThen hauto ?_
        intro s3 tr3 heq3
        have h3 := hauto.2 s3 tr3 heq3
        refine total_andThen (generateFilesStage_total P U L t s3 h3.1) ?_
        intro s4 tr4 heq4
        have h4 := (generateFilesStage_total P U L t s3 h3.1).2 s4 tr4 heq4
        exact topFinishStage_total P U L t s4 h4.1
    | subs t i rem =>
      obtain ⟨ht, hfuel⟩ := hpre
      cases rem with
      | zero =>
        show TotalRun P U L s (setupRun P (fuel + 1) (SetupCall.subs t i 0) s)
        rw [setupRun]
        exact total_ok_inv hinv
      | succ rem =>
        show TotalRun P U L s
          (setupRun P (fuel + 1) (SetupCall.subs t i (rem + 1)) s)
        rw [setupRun]
        split
        · exact total_ok_inv hinv
        · split
          · exact total_err
          · rename_i x1 e hgi x2 act e1 hre
            have heU : entryClosed P U e = true :=
              (hinv t).2.1 e (List.get?_mem hgi)
            have hlU : ∀ q, (getSt s t).setupPurpose.getLast? = some q →
                q ∈ U :=
              fun q hq => (hinv t).1 q (getLast?_mem_of_eq hq)
            have hpur : ∀ u, (getSt s u).setupPurpose =
                (getSt (setSt t
                  (ClassState.mk (getSt s t).setupPurpose
                    (getSt s t).initializedAttributes (getSt s t).isTopModule
                    ((getSt s t).subs.set i e1) (getSt s t).regs) s)
                  u).setupPurpose :=
              purposes_setSt_subst t
                (ClassState.mk (getSt s t).setupPurpose
                  (getSt s t).initializedAttributes (getSt s t).isTopModule
                  ((getSt s t).subs.set i e1) (getSt s t).regs) s rfl
            have hmono1 : stMono s (setSt t
                (ClassState.mk (getSt s t).setupPurpose
                  (getSt s t).initializedAttributes (getSt s t).isTopModule
                  ((getSt s t).subs.set i e1) (getSt s t).regs) s) :=
              fun u q hq => (hpur u) ▸ hq
            have hM1 : missingCount P U (setSt t
                (ClassState.mk (getSt s t).setupPurpose
                  (getSt s t).initializedAttributes (getSt s t).isTopModule
                  ((getSt s t).subs.set i e1) (getSt s t).regs) s) =
                missingCount P U s :=
              missingCount_congr P U hpur
            split
            · have hcl := resolveEntry_closed P U (getSt s t).isTopModule
                (getSt s t).setupPurpose.getLast? e e1 none hcp.1 heU hlU hre
              have hinv1 : InvSt P U L (setSt t
                  (ClassState.mk (getSt s t).setupPurpose
                    (getSt s t).initializedAttributes (getSt s t).isTopModule
                    ((getSt s t).subs.set i e1) (getSt s t).regs) s) := by
                intro u
                by_cases hu : u = t
                · subst hu
                  rw [getSt_setSt_self]
                  refine ⟨(hinv u).1, ?_, ?_⟩
                  · intro e2 he2
                    rcases List.mem_or_eq_of_mem_set he2 with h | h
                    · exact (hinv u).2.1 e2 h
                    · subst h
                      exact hcl.1
                  · rw [List.length_set]
                    exact (hinv u).2.2
                · rw [getSt_setSt_ne t u _ _ hu]
                  exact hinv u
              refine total_mono hmono1 (ih _ _ hinv1 ⟨ht, ?_⟩)
              rw [hM1]
              omega
            · rename_i lopt q
              have hcl := resolveEntry_closed P U (getSt s t).isTopModule
                (getSt s t).setupPurpose.getLast? e e1 (some q) hcp.1 heU hlU
                hre
              have hinv1 : InvSt P U L (setSt t
                  (ClassState.mk (getSt s t).setupPurpose
                    (getSt s t).initializedAttributes (getSt s t).isTopModule
                    ((getSt s t).subs.set i e1) (getSt s t).regs) s) := by
                intro u
                by_cases hu : u = t
                · subst hu
                  rw [getSt_setSt_self]
                  refine ⟨(hinv u).1, ?_, ?_⟩
                  · intro e2 he2
                    rcases List.mem_or_eq_of_mem_set he2 with h | h
                    · exact (hinv u).2.1 e2 h
                    · subst h
                      exact hcl.1
                  · rw [List.length_set]
                    exact (hinv u).2.2
                · rw [getSt_setSt_ne t u _ _ hu]
                  exact hinv u
              have hqU : q ∈ U := hcl.2 q rfl
              split
              · rename_i ifname hk
                refine total_mono hmono1 ?_
                refine total_andThen
                  (genInterfaceStage_total P U L t ifname q _ hinv1) ?_
                intro s2 tr2 heq2
                have h2 := (genInterfaceStage_total P U L t ifname q _
                  hinv1).2 s2 tr2 heq2
                refine ih _ _ h2.1 ⟨ht, ?_⟩
                have hm2l : (L + 2) * missingCount P U s2 ≤
                    (L + 2) * missingCount P U (setSt t
                      (ClassState.mk (getSt s t).setupPurpose
                        (getSt s t).initializedAttributes
                        (getSt s t).isTopModule
                        ((getSt s t).subs.set i e1) (getSt s t).regs) s) :=
                  Nat.mul_le_mul_left _ (missingCount_mono P U h2.2)
                rw [hM1] at hm2l
                omega
              · rename_i u hk
                have huT : u ∈ P.types := by
                  have h1 := (Bool.and_eq_true _ _).mp heU |>.1
                  rw [hk] at h1
                  simpa using h1
                have hmod : TotalRun P U L (setSt t
                    (ClassState.mk (getSt s t).setupPurpose
                      (getSt s t).initializedAttributes (getSt s t).isTopModule
                      ((getSt s t).subs.set i e1) (getSt s t).regs) s)
                    (setupRun P fuel (SetupCall.setup u q false)
                      (setSt t
                        (ClassState.mk (getSt s t).setupPurpose
                          (getSt s t).initializedAttributes
                          (getSt s t).isTopModule
                          ((getSt s t).subs.set i e1) (getSt s t).regs) s)) := by
                  refine ih _ _ hinv1 ⟨huT, hqU, ?_⟩
                  rw [hM1]
                  omega
                refine total_mono hmono1 (total_andThen hmod ?_)
                intro s2 tr2 heq2
                have h2 := hmod.2 s2 tr2 heq2
                refine ih _ _ h2.1 ⟨ht, ?_⟩
                have hm2l : (L + 2) * missingCount P U s2 ≤
                    (L + 2) * missingCount P U (setSt t
                      (ClassState.mk (getSt s t).setupPurpose
                        (getSt s t).initializedAttributes
                        (getSt s t).isTopModule
                        ((getSt s t).subs.set i e1) (getSt s t).regs) s) :=
                  Nat.mul_le_mul_left _ (missingCount_mono P U h2.2)
                rw [hM1] at hm2l
                omega
              · exact total_err

/-- C9: in a closed finite dependency graph (every submodule reference stays
inside the program's declared types, even cyclically), the recursive setup
terminates: a computable amount of fuel is never exhausted, because the
purpose is appended to the type's history before the submodule recursion and
the entry guard returns immediately for any recorded purpose; consequently
the `__setup` body runs at most once per (descriptor type, purpose) pair,
whatever the fuel. -/
theorem c9_setup_terminates_and_memoizes (P : Prog) (U : List Purpose)
    (L : Nat) (hcp : ClosedProg P U L) (t : TypeId) (ht : t ∈ P.types) :
    (∀ fuel, 1 + (L + 2) * missingCount P U [] ≤ fuel →
      setup_as_top_module P fuel t ≠ Outcome.outOfFuel) ∧
    (∀ fuel u q,
      (outTrace (setup_as_top_module P fuel t)).count
        (Event.bodyEnter u q) ≤ 1) := by
  constructor
  · intro fuel hf
    exact (setupRun_total P U L hcp fuel (SetupCall.setup t "hardware" true)
      [] (InvSt_nil P U L) ⟨ht, hcp.1, hf⟩).1
  · intro fuel u q
    have h := setupRun_outSpec P fuel (SetupCall.setup t "hardware" true) []
    show (outTrace
      (setupRun P fuel (SetupCall.setup t "hardware" true) [])).count
        (Event.bodyEnter u q) ≤ 1
    cases ho : setupRun P fuel (SetupCall.setup t "hardware" true) [] with
    | ok s' tr =>
      rw [ho] at h
      exact h.2.2 u q
    | err s' tr m =>
      rw [ho] at h
      exact h.2.2 u q
    | outOfFuel => simp [outTrace]

theorem c9_setup_terminates_and_memoizes_witness :
    (ClosedProg progAB ["hardware"] 1 ∧ "a" ∈ progAB.types ∧
      1 + (1 + 2) * missingCount progAB ["hardware"] [] ≤ 10) ∧
    setup_as_top_module progAB 10 "a" ≠ Outcome.outOfFuel ∧
    (outTrace (setup_as_top_module progAB 10 "a")).count
      (Event.bodyEnter "a" "hardware") ≤ 1 := by
  have h := c9_setup_terminates_and_memoizes progAB ["hardware"] 1
    (by unfold ClosedProg; decide) "a" (by decide)
  exact ⟨⟨by unfold ClosedProg; decide, by decide, by decide⟩,
    h.1 10 (by decide), h.2 10 "a" "hardware"⟩
